import Mathlib

/-!
Verification development for the job-queue manager of a 3D-printer fleet
(source: src/manager/jobs.py and the data model it manipulates).

The relational rows touched by the job subsystem are embedded as Lean
structures, and each manager operation becomes a pure function from a
database value to a database value or an error.  Machine behaviour that
the Python runtime provides implicitly (an IndexError on an out-of-range
list index, an AttributeError on a None attribute access, a TypeError on
int(None)) is made explicit in the result type, with the database as it
stood when the exception was raised.
-/

namespace QueueMgr

/-- The closed set of job states.  The source looks states up by string in
the seeded JobState table (job_state_ids); the spec treats them as a fixed
closed enum, so the embedding uses an inductive type. -/
inductive JState where
  | created
  | waiting
  | printing
  | finished
  | done
deriving DecidableEq

/-- One row of the Job table, with exactly the columns that
src/manager/jobs.py reads or writes.  Foreign keys are plain naturals,
nullable columns are Option, priorities are integers because the head
insertion (requeue with max_priority) computes current minimum minus one
and can go below zero. -/
structure JobRec where
  id : Nat
  name : String
  idState : JState
  idFile : Nat
  idUser : Nat
  priority_i : Option Int
  canBePrinted : Bool
  retries : Nat
  progress : Option Int
  startedAt : Option Nat
  finishedAt : Option Nat
  estimatedTimeLeft : Option Int
  interrupted : Bool
  succeed : Option Bool
deriving DecidableEq

/-- One row of the PrinterState table (src/models/printers.py): only the
id and the isOperationalState flag matter to the job subsystem. -/
structure PrinterStateRec where
  id : Nat
  isOperationalState : Bool
deriving DecidableEq

/-- One row of the PrinterExtruder table (src/models/printers.py): the
current extruder type and material of a printer toolhead slot; both
columns are nullable. -/
structure PrinterExtruderRec where
  idExtruderType : Option Nat
  idMaterial : Option Nat
  index : Nat
deriving DecidableEq

/-- One row of the Printer table (src/models/printers.py), with its
extruder rows inlined (the extruders relationship). -/
structure PrinterRec where
  id : Nat
  idState : Nat
  idCurrentJob : Option Nat
  extruders : List PrinterExtruderRec
deriving DecidableEq

/-- One row of the JobAllowedMaterial table: job, material, extruder
index. -/
structure AllowedMaterialRec where
  idJob : Nat
  idMaterial : Nat
  extruderIndex : Nat
deriving DecidableEq

/-- One row of the JobAllowedExtruder table: job, extruder type, extruder
index. -/
structure AllowedExtruderRec where
  idJob : Nat
  idExtruderType : Nat
  extruderIndex : Nat
deriving DecidableEq

/-- One row of the JobExtruder table: the used material and extruder type
are filled in when the job finishes and reset on re-enqueue. -/
structure JobExtruderRec where
  id : Nat
  idJob : Nat
  extruderIndex : Nat
  idUsedExtruderType : Option Nat
  idUsedMaterial : Option Nat
deriving DecidableEq

/-- One row of the File table: the job subsystem only reads the estimated
printing time when a job starts printing. -/
structure FileRec where
  id : Nat
  estimatedPrintingTime : Option Int
deriving DecidableEq

/-- The database as seen by the job manager. -/
structure DB where
  jobs : List JobRec
  printers : List PrinterRec
  printerStates : List PrinterStateRec
  files : List FileRec
  allowedMaterials : List AllowedMaterialRec
  allowedExtruders : List AllowedExtruderRec
  jobExtruders : List JobExtruderRec
deriving DecidableEq

/-- The errors an operation can surface.  invalidParameter embeds
manager.exceptions.InvalidParameter, the only validation error type that
src/manager/jobs.py imports and raises (message strings are dropped).
invalidState is modelled from the spec: the spec error taxonomy in
section 7 names an InvalidState kind for precondition failures, but no
such class appears anywhere under src (manager/exceptions.py is not in
src; the re-export list in src/manager/__init__.py shows DBManagerError,
InvalidParameter, DBInternalError and UniqueConstraintError only), so the
constructor exists here solely to make claims mentioning it statable.
indexError, attributeError and typeError embed the Python runtime
exceptions the code can raise; notFound stands for a lookup of an absent
entity by the caller. -/
inductive Err where
  | invalidParameter
  | invalidState
  | indexError
  | attributeError
  | typeError
  | notFound
deriving DecidableEq

/-- Result of one manager operation: either the updated database, or an
error together with the database as it stood when the exception was
raised (Python leaves already-executed attribute assignments in place). -/
inductive StepResult where
  | ok : DB → StepResult
  | err : Err → DB → StepResult
deriving DecidableEq

/-- The database carried by a step result. -/
def StepResult.state : StepResult → DB
  | .ok db => db
  | .err _ db => db

/-- True when the step result is an error. -/
def StepResult.isErr : StepResult → Bool
  | .ok _ => false
  | .err _ _ => true

/-- True when the step result is an invalidState error (the spec error
kind; the code never produces it). -/
def StepResult.raisedInvalidState : StepResult → Bool
  | .err .invalidState _ => true
  | _ => false

/-- True when the step result is an invalidParameter error. -/
def StepResult.raisedInvalidParameter : StepResult → Bool
  | .err .invalidParameter _ => true
  | _ => false

/-- get_jobs(id=jid) restricted to the primary-key lookup: the first job
row with the given id. -/
def findJob (db : DB) (jid : Nat) : Option JobRec :=
  db.jobs.find? (fun j => j.id == jid)

/-- Printer lookup by primary key. -/
def findPrinter (db : DB) (pid : Nat) : Option PrinterRec :=
  db.printers.find? (fun p => p.id == pid)

/-- The assigned_printer relationship of a job: the printer whose
idCurrentJob column references the job (Printer.current_job back
reference in src/models/printers.py). -/
def assigned_printer (db : DB) (jid : Nat) : Option PrinterRec :=
  db.printers.find? (fun p => p.idCurrentJob == some jid)

/-- get_job_allowed_materials (src/manager/jobs.py, DBManagerJobAllowedMaterials):
the materials allowed for the job at one extruder index. -/
def get_job_allowed_materials (db : DB) (jid : Nat) (idx : Nat) : List Nat :=
  (db.allowedMaterials.filter (fun r => r.idJob == jid && r.extruderIndex == idx)).map
    (fun r => r.idMaterial)

/-- get_job_allowed_extruder_types (src/manager/jobs.py): the extruder
types allowed for the job at one extruder index. -/
def get_job_allowed_extruder_types (db : DB) (jid : Nat) (idx : Nat) : List Nat :=
  (db.allowedExtruders.filter (fun r => r.idJob == jid && r.extruderIndex == idx)).map
    (fun r => r.idExtruderType)

/-- Whether a printer is in an operational state: the join of Printer with
PrinterState filtered on isOperationalState (check_can_be_printed_job,
line 350 of src/manager/jobs.py). -/
def printer_is_operational (db : DB) (p : PrinterRec) : Bool :=
  match db.printerStates.find? (fun s => s.id == p.idState) with
  | some s => s.isOperationalState
  | none => false

/-- The body of the per-extruder check in check_can_be_printed_job: the
extruder fails when the job declares allowed materials at this index and
the current material is not among them, or declares allowed extruder
types and the current type is not among them.  A null current material or
type fails a declared constraint (None is not a member of a list of
material rows). -/
def extruder_fails (db : DB) (jid : Nat) (ext : PrinterExtruderRec) : Bool :=
  let mats := get_job_allowed_materials db jid ext.index
  let matFail :=
    !mats.isEmpty &&
      (match ext.idMaterial with
       | some m => !(mats.contains m)
       | none => true)
  let types := get_job_allowed_extruder_types db jid ext.index
  let typeFail :=
    !types.isEmpty &&
      (match ext.idExtruderType with
       | some t => !(types.contains t)
       | none => true)
  matFail || typeFail

/-- A printer is rejected by check_can_be_printed_job when any of its
extruders fails a declared constraint (the inner loop deletes the printer
and breaks at the first failing extruder). -/
def printer_rejected (db : DB) (jid : Nat) (p : PrinterRec) : Bool :=
  p.extruders.any (extruder_fails db jid)

/-- The operational printers, in table order: the candidate list
usable_printers of check_can_be_printed_job. -/
def operational_printers (db : DB) : List PrinterRec :=
  db.printers.filter (printer_is_operational db)

/-- The loop of check_can_be_printed_job (lines 354-368 of
src/manager/jobs.py), embedded exactly as written: i iterates over
range(n) where n is the length of the candidate list before the loop,
the element at position i is read each iteration (an out-of-range read is
an IndexError), and a rejected printer is removed in place from the list
being iterated.  The first argument counts the remaining iterations. -/
def check_loop (db : DB) (jid : Nat) : Nat → Nat → List PrinterRec →
    Except Err (List PrinterRec)
  | 0, _, l => Except.ok l
  | k + 1, i, l =>
    match l[i]? with
    | none => Except.error Err.indexError
    | some p =>
      if printer_rejected db jid p then check_loop db jid k (i + 1) (l.eraseIdx i)
      else check_loop db jid k (i + 1) l

/-- check_can_be_printed_job with return_usable_printers=True: the
candidate list after the (faithfully buggy) deletion loop. -/
def check_usable_printers (db : DB) (jid : Nat) : Except Err (List PrinterRec) :=
  let usable := operational_printers db
  check_loop db jid usable.length 0 usable

/-- check_can_be_printed_job with the default return format: whether the
surviving candidate list is non-empty. -/
def check_can_be_printed_job (db : DB) (jid : Nat) : Except Err Bool :=
  (check_usable_printers db jid).map (fun l => !l.isEmpty)

/-- Modelled from the spec: the corrected printability semantics of spec
section 4.1 (also restated in section 9), used to compare with the source
loop above — keep every operational printer that passes the material and
extruder-type check at every one of its extruder indexes. -/
def printable_spec (db : DB) (jid : Nat) : List PrinterRec :=
  (operational_printers db).filter (fun p => !(printer_rejected db jid p))

/-- The maximal priority among the jobs that hold one: the priority of
the first row of the query Job.priority_i.isnot(None) ordered by
priority_i descending (the row the source calls lowest_priority_job),
none when no job has a priority. -/
def maxPrio : List JobRec → Option Int
  | [] => none
  | j :: rest =>
    match j.priority_i, maxPrio rest with
    | none, r => r
    | some p, none => some p
    | some p, some q => some (max p q)

/-- The minimal priority among the jobs that hold one: the priority of
the first row of the same query ordered ascending (the row the source
calls highest_priority_job). -/
def minPrio : List JobRec → Option Int
  | [] => none
  | j :: rest =>
    match j.priority_i, minPrio rest with
    | none, r => r
    | some p, none => some p
    | some p, some q => some (min p q)

/-- update_job on the single row with the given primary key: the source
mutates the fetched Job object in place, which the embedding renders as a
map over the table keyed on id. -/
def updJob (db : DB) (jid : Nat) (g : JobRec → JobRec) : DB :=
  { db with jobs := db.jobs.map (fun j => if j.id = jid then g j else j) }

/-- Clearing the assigned_printer relationship of a job (update with
assigned_printer=None): the printer whose idCurrentJob references the job
gets that column nulled. -/
def clearPrinterOf (db : DB) (jid : Nat) : DB :=
  { db with
    printers := db.printers.map
      (fun p => if p.idCurrentJob = some jid then { p with idCurrentJob := none } else p) }

/-- The bulk update resetting the used data of the job extruder rows of
one job (execute_update over JobExtruder.query.filter_by(idJob=job.id)). -/
def resetJobExtruders (db : DB) (jid : Nat) : DB :=
  { db with
    jobExtruders := db.jobExtruders.map
      (fun je =>
        if je.idJob = jid then { je with idUsedExtruderType := none, idUsedMaterial := none }
        else je) }

/-- True when the row holds a priority strictly between a and b (the SQL
filter priority_i is not None and greater than a and less than b). -/
def prioInOpen (j : JobRec) (a b : Int) : Bool :=
  match j.priority_i with
  | some p => a < p && p < b
  | none => false

/-- True when the row holds a priority in the half-open interval from a
exclusive to b inclusive. -/
def prioInHalf (j : JobRec) (a b : Int) : Bool :=
  match j.priority_i with
  | some p => a < p && p ≤ b
  | none => false

/-- The field changes of enqueue_created_job on the enqueued row. -/
def enqueueUpd (p : Int) (b : Bool) (j : JobRec) : JobRec :=
  { j with priority_i := some p, idState := .waiting, canBePrinted := b,
           retries := 0, progress := some 0 }

/-- The field changes of set_printing_job on the started row. -/
def startUpd (now : Nat) (tl : Option Int) (j : JobRec) : JobRec :=
  { j with idState := .printing, priority_i := none, startedAt := some now,
           estimatedTimeLeft := tl, interrupted := false }

/-- The field changes of set_finished_job on the finished row. -/
def finishUpd (now : Nat) (j : JobRec) : JobRec :=
  { j with idState := .finished, finishedAt := some now, progress := some 100,
           estimatedTimeLeft := some 0 }

/-- The field changes of set_done_job on the done row. -/
def doneUpd (succeed : Bool) (j : JobRec) : JobRec :=
  { j with idState := .done, succeed := some succeed }

/-- Assignment of a single priority value to a row. -/
def setPrio (p : Int) (j : JobRec) : JobRec :=
  { j with priority_i := some p }

/-- The bulk shift of the head-direction reorder: rows with a priority
strictly between the two bounds move up by one. -/
def shiftUp (a b : Int) (j : JobRec) : JobRec :=
  if prioInOpen j a b then { j with priority_i := j.priority_i.map (fun p => p + 1) }
  else j

/-- The bulk shift of the tail-direction reorder: rows with a priority in
the half-open interval move down by one. -/
def shiftDown (a b : Int) (j : JobRec) : JobRec :=
  if prioInHalf j a b then { j with priority_i := j.priority_i.map (fun p => p - 1) }
  else j

/-- The field changes of enqueue_printing_or_finished_job on the requeued
row: the retries counter is incremented and the run data cleared. -/
def requeueUpd (p : Int) (b : Bool) (j : JobRec) : JobRec :=
  { j with priority_i := some p, idState := .waiting, canBePrinted := b,
           retries := j.retries + 1, startedAt := none, finishedAt := none,
           progress := some 0, estimatedTimeLeft := none }

/-- The field changes of reprint_done_job on the reprinted row: the
retries counter is reset to zero and the run data cleared. -/
def reprintUpd (p : Int) (b : Bool) (j : JobRec) : JobRec :=
  { j with priority_i := some p, idState := .waiting, canBePrinted := b,
           retries := 0, startedAt := none, finishedAt := none,
           progress := some 0, estimatedTimeLeft := none }

/-- The tail priority: current maximum plus one, or 1 when no job holds a
priority (the lowest_priority_job computation of the source). -/
def newTailPrio (db : DB) : Int :=
  match maxPrio db.jobs with
  | none => 1
  | some m => m + 1

/-- The head priority: current minimum minus one, or 1 when no job holds
a priority (the highest_priority_job computation of the source). -/
def newHeadPrio (db : DB) : Int :=
  match minPrio db.jobs with
  | none => 1
  | some m => m - 1

/-- insert_job (src/manager/jobs.py, lines 376-404): rejects an empty
name and appends a row in the Created state.  The primary key is the
successor of the largest existing id (autoincrement).  Column defaults
for the fields the constructor leaves unset are modelled from the spec,
models/jobs.py not being under src: a freshly created job has no
priority, no timestamps, no progress and a zero retries counter (spec
section 3, lifecycle). -/
def insert_job (db : DB) (name : String) (fid uid : Nat) : StepResult :=
  if name = "" then .err .invalidParameter db
  else
    let newId := (db.jobs.foldl (fun acc j => max acc j.id) 0) + 1
    .ok { db with
          jobs := db.jobs ++
            [{ id := newId, name := name, idState := .created, idFile := fid, idUser := uid,
               priority_i := none, canBePrinted := false, retries := 0, progress := none,
               startedAt := none, finishedAt := none, estimatedTimeLeft := none,
               interrupted := false, succeed := none }] }

/-- enqueue_created_job (src/manager/jobs.py, lines 492-517): only a
Created job may be enqueued; the capability check runs first, the new
priority is the current maximum plus one (or 1 when no job holds a
priority), and the row is updated to Waiting with retries 0 and progress
0. -/
def enqueue_created_job (db : DB) (jid : Nat) : StepResult :=
  match findJob db jid with
  | none => .err .notFound db
  | some job =>
    if job.idState ≠ JState.created then .err .invalidParameter db
    else
      match check_can_be_printed_job db jid with
      | .error e => .err e db
      | .ok b => .ok (updJob db jid (enqueueUpd (newTailPrio db) b))

/-- set_printing_job (src/manager/jobs.py, lines 531-549): requires a
printable Waiting job with an assigned printer; moves it to Printing,
nulls the priority, stamps startedAt and copies the file estimated
printing time.  Reading the file of the job fails when the referenced
file row is absent (attribute access on None). -/
def set_printing_job (db : DB) (now : Nat) (jid : Nat) : StepResult :=
  match findJob db jid with
  | none => .err .notFound db
  | some job =>
    if job.canBePrinted = false ∨ job.idState ≠ JState.waiting then .err .invalidParameter db
    else if (assigned_printer db jid).isNone then .err .invalidParameter db
    else
      match db.files.find? (fun f => f.id == job.idFile) with
      | none => .err .attributeError db
      | some file => .ok (updJob db jid (startUpd now file.estimatedPrintingTime))

/-- The loop of set_finished_job over the job extruder rows: each row of
the job receives the current extruder type and material of the printer
extruder at its index.  A missing printer extruder at that index, or a
null type or material on it, is an attribute access on None; the rows
already processed keep their updates (the error carries the partially
updated table). -/
def finish_extruders (printer : PrinterRec) (jid : Nat) :
    List JobExtruderRec → Except (Err × List JobExtruderRec) (List JobExtruderRec)
  | [] => Except.ok []
  | je :: rest =>
    if je.idJob = jid then
      match printer.extruders.find? (fun pe => pe.index == je.extruderIndex) with
      | none => Except.error (.attributeError, je :: rest)
      | some pe =>
        match pe.idExtruderType, pe.idMaterial with
        | some t, some m =>
          let je' := { je with idUsedExtruderType := some t, idUsedMaterial := some m }
          match finish_extruders printer jid rest with
          | Except.ok rows => Except.ok (je' :: rows)
          | Except.error (e, rows) => Except.error (e, je' :: rows)
        | _, _ => Except.error (.attributeError, je :: rest)
    else
      match finish_extruders printer jid rest with
      | Except.ok rows => Except.ok (je :: rows)
      | Except.error (e, rows) => Except.error (e, je :: rows)

/-- set_finished_job (src/manager/jobs.py, lines 551-578), embedded with
its statement order preserved: the state precondition is checked, the job
row is updated to Finished (finishedAt, progress 100, estimatedTimeLeft
0), and only then is job.assigned_printer dereferenced to copy the used
extruder data — so a Printing job without an assigned printer raises
after the job row has already been mutated. -/
def set_finished_job (db : DB) (now : Nat) (jid : Nat) : StepResult :=
  match findJob db jid with
  | none => .err .notFound db
  | some job =>
    if job.idState ≠ JState.printing then .err .invalidParameter db
    else
      match assigned_printer (updJob db jid (finishUpd now)) jid with
      | none => .err .attributeError (updJob db jid (finishUpd now))
      | some printer =>
        match finish_extruders printer jid (updJob db jid (finishUpd now)).jobExtruders with
        | Except.ok rows => .ok { updJob db jid (finishUpd now) with jobExtruders := rows }
        | Except.error (e, rows) =>
          .err e { updJob db jid (finishUpd now) with jobExtruders := rows }

/-- set_done_job (src/manager/jobs.py, lines 580-595): a Finished job
moves to Done, records the succeed flag and releases the printer
(assigned_printer=None nulls the idCurrentJob of the printer holding the
job). -/
def set_done_job (db : DB) (jid : Nat) (succeed : Bool) : StepResult :=
  match findJob db jid with
  | none => .err .notFound db
  | some job =>
    if job.idState ≠ JState.finished then .err .invalidParameter db
    else .ok (clearPrinterOf (updJob db jid (doneUpd succeed)) jid)

/-- reorder_job_in_queue (src/manager/jobs.py, lines 597-654): both jobs
must be Waiting and distinct; moving after None takes the current minimum
priority minus one; otherwise the rows strictly between the two
priorities shift toward the hole and the moved job lands right after the
after job.  int(None) on a null priority is a TypeError; reading the
priority of a missing minimum row is an attribute access on None. -/
def reorder_job_in_queue (db : DB) (jid : Nat) (afterId : Option Nat) : StepResult :=
  match findJob db jid with
  | none => .err .notFound db
  | some job =>
    if job.idState ≠ JState.waiting then .err .invalidParameter db
    else
      match afterId with
      | none =>
        match minPrio db.jobs with
        | none => .err .attributeError db
        | some m => .ok (updJob db jid (setPrio (m - 1)))
      | some aid =>
        match findJob db aid with
        | none => .err .notFound db
        | some after =>
          if after.idState ≠ JState.waiting then .err .invalidParameter db
          else if job.id = after.id then .err .invalidParameter db
          else
            match job.priority_i, after.priority_i with
            | some orig, some t =>
              if t < orig then
                .ok (updJob { db with jobs := db.jobs.map (shiftUp t orig) } jid
                  (setPrio (t + 1)))
              else if orig < t then
                .ok (updJob { db with jobs := db.jobs.map (shiftDown orig t) } jid
                  (setPrio t))
              else .ok db
            | _, _ => .err .typeError db

/-- enqueue_printing_or_finished_job (src/manager/jobs.py, lines
656-691): requeues an interrupted Printing or Finished job to the head
(current minimum minus one) or the tail (current maximum plus one, or 1
when no job holds a priority), recomputes the capability flag,
increments retries, clears the run data and the printer reference, and
resets the used fields of the job extruder rows. -/
def enqueue_printing_or_finished_job (db : DB) (jid : Nat) (max_priority : Bool) : StepResult :=
  match findJob db jid with
  | none => .err .notFound db
  | some job =>
    if job.idState ≠ JState.printing ∧ job.idState ≠ JState.finished then
      .err .invalidParameter db
    else
      match check_can_be_printed_job db jid with
      | .error e => .err e db
      | .ok b =>
        .ok (resetJobExtruders (clearPrinterOf
          (updJob db jid
            (requeueUpd (if max_priority then newHeadPrio db else newTailPrio db) b))
          jid) jid)

/-- reprint_done_job (src/manager/jobs.py, lines 733-762): re-enqueues a
Done job at the tail with the retries counter reset to zero, clearing the
run data and the used extruder fields. -/
def reprint_done_job (db : DB) (jid : Nat) : StepResult :=
  match findJob db jid with
  | none => .err .notFound db
  | some job =>
    if job.idState ≠ JState.done then .err .invalidParameter db
    else
      match check_can_be_printed_job db jid with
      | .error e => .err e db
      | .ok b =>
        .ok (resetJobExtruders (clearPrinterOf
          (updJob db jid (reprintUpd (newTailPrio db) b)) jid) jid)

/-- assign_job_to_printer (src/manager/jobs.py, lines 706-731): the job
must be Waiting and printable and the printer free; the only write is the
idCurrentJob column of that printer. -/
def assign_job_to_printer (db : DB) (pid : Nat) (jid : Nat) : StepResult :=
  match findPrinter db pid, findJob db jid with
  | some printer, some job =>
    if job.idState ≠ JState.waiting then .err .invalidParameter db
    else if job.canBePrinted = false then .err .invalidParameter db
    else if printer.idCurrentJob.isSome then .err .invalidParameter db
    else
      .ok { db with
            printers := db.printers.map
              (fun p => if p.id = pid then { p with idCurrentJob := some jid } else p) }
  | _, _ => .err .notFound db

/-- delete_job (src/manager/jobs.py, lines 693-704): removes the job row
and its dependent rows (the relationship cascades of the job model). -/
def delete_job (db : DB) (jid : Nat) : StepResult :=
  .ok { db with
        jobs := db.jobs.filter (fun j => j.id ≠ jid),
        jobExtruders := db.jobExtruders.filter (fun je => je.idJob ≠ jid),
        allowedMaterials := db.allowedMaterials.filter (fun r => r.idJob ≠ jid),
        allowedExtruders := db.allowedExtruders.filter (fun r => r.idJob ≠ jid) }

/-- One invocation of an exposed operation of the job manager. -/
inductive Op where
  | insert (name : String) (fid uid : Nat)
  | enqueue (jid : Nat)
  | startPrinting (now jid : Nat)
  | finishJob (now jid : Nat)
  | markDone (jid : Nat) (succeed : Bool)
  | requeue (jid : Nat) (max_priority : Bool)
  | reprint (jid : Nat)
  | reorder (jid : Nat) (afterId : Option Nat)
  | assign (pid jid : Nat)
  | delete (jid : Nat)

/-- Dispatch of an operation to its embedding. -/
def applyOp (op : Op) (db : DB) : StepResult :=
  match op with
  | .insert name fid uid => insert_job db name fid uid
  | .enqueue jid => enqueue_created_job db jid
  | .startPrinting now jid => set_printing_job db now jid
  | .finishJob now jid => set_finished_job db now jid
  | .markDone jid succeed => set_done_job db jid succeed
  | .requeue jid mp => enqueue_printing_or_finished_job db jid mp
  | .reprint jid => reprint_done_job db jid
  | .reorder jid afterId => reorder_job_in_queue db jid afterId
  | .assign pid jid => assign_job_to_printer db pid jid
  | .delete jid => delete_job db jid

/-- One step of the job manager: the database reached by one operation,
whether it returned normally or raised (a raise leaves the writes already
executed in place, so the carried database is also a reachable state). -/
def Step (db db' : DB) : Prop :=
  ∃ op : Op, (applyOp op db).state = db'

/-- The states reachable through the operations of the job manager,
starting from a database holding no job rows (printers, printer states,
files and constraint rows arbitrary). -/
inductive Reachable : DB → Prop where
  | init (db : DB) : db.jobs = [] → db.jobExtruders = [] → Reachable db
  | step (db db' : DB) : Reachable db → Step db db' → Reachable db'

/-! Invariant machinery: the queue invariant couples priorities with the
Waiting state and keeps priorities (and primary keys) pairwise distinct. -/

/-- The pairwise part of the queue invariant: two distinct job rows have
distinct primary keys and never share a priority value. -/
def JRel (a b : JobRec) : Prop :=
  a.id ≠ b.id ∧ ∀ p : Int, a.priority_i = some p → b.priority_i ≠ some p

/-- The per-row part: a job holds a priority exactly when it is
Waiting. -/
def Coupled (j : JobRec) : Prop :=
  j.priority_i ≠ none ↔ j.idState = JState.waiting

/-- The queue invariant over the Job table. -/
structure JobsInv (l : List JobRec) : Prop where
  pairs : l.Pairwise JRel
  coupling : ∀ j ∈ l, Coupled j

/-- The queue invariant over a database. -/
def Inv (db : DB) : Prop := JobsInv db.jobs

theorem pairwise_map_of_mem {α β : Type} {R : α → α → Prop} {S : β → β → Prop}
    {l : List α} {f : α → β}
    (h : ∀ a b, a ∈ l → b ∈ l → R a b → S (f a) (f b)) (hp : l.Pairwise R) :
    (l.map f).Pairwise S := by
  induction l with
  | nil => simp
  | cons x xs ih =>
    rcases List.pairwise_cons.mp hp with ⟨hx, hxs⟩
    refine List.pairwise_cons.mpr ⟨?_, ?_⟩
    · intro b hb
      rcases List.mem_map.mp hb with ⟨a, ha, rfl⟩
      exact h x a (List.mem_cons_self _ _) (List.mem_cons_of_mem _ ha) (hx a ha)
    · exact ih (fun a b ha hb hr =>
        h a b (List.mem_cons_of_mem _ ha) (List.mem_cons_of_mem _ hb) hr) hxs

theorem eq_of_mem_of_id {l : List JobRec} {a b : JobRec}
    (hp : l.Pairwise JRel) (ha : a ∈ l) (hb : b ∈ l) (hid : a.id = b.id) : a = b := by
  induction l with
  | nil => cases ha
  | cons x xs ih =>
    rcases List.pairwise_cons.mp hp with ⟨hx, hxs⟩
    rcases List.mem_cons.mp ha with rfl | ha' <;> rcases List.mem_cons.mp hb with rfl | hb'
    · rfl
    · exact absurd hid (hx b hb').1
    · exact absurd hid.symm (hx a ha').1
    · exact ih hxs ha' hb'

theorem eq_of_mem_of_prio {l : List JobRec} {a b : JobRec} {p : Int}
    (hp : l.Pairwise JRel) (ha : a ∈ l) (hb : b ∈ l)
    (hpa : a.priority_i = some p) (hpb : b.priority_i = some p) : a = b := by
  induction l with
  | nil => cases ha
  | cons x xs ih =>
    rcases List.pairwise_cons.mp hp with ⟨hx, hxs⟩
    rcases List.mem_cons.mp ha with rfl | ha' <;> rcases List.mem_cons.mp hb with rfl | hb'
    · rfl
    · exact absurd hpb ((hx b hb').2 p hpa)
    · exact absurd hpa ((hx a ha').2 p hpb)
    · exact ih hxs ha' hb'

theorem maxPrio_none {l : List JobRec} (hm : maxPrio l = none) :
    ∀ j ∈ l, j.priority_i = none := by
  induction l with
  | nil => intro j hj; cases hj
  | cons x xs ih =>
    intro j hj
    simp only [maxPrio] at hm
    cases hxp : x.priority_i with
    | none =>
      rw [hxp] at hm
      rcases List.mem_cons.mp hj with rfl | hj'
      · exact hxp
      · exact ih hm j hj'
    | some p =>
      rw [hxp] at hm
      cases hmax : maxPrio xs <;> rw [hmax] at hm <;> cases hm

theorem maxPrio_le {l : List JobRec} {m : Int} (hm : maxPrio l = some m) :
    ∀ j ∈ l, ∀ q : Int, j.priority_i = some q → q ≤ m := by
  induction l generalizing m with
  | nil => intro j hj; cases hj
  | cons x xs ih =>
    intro j hj q hq
    simp only [maxPrio] at hm
    rcases List.mem_cons.mp hj with rfl | hj'
    · rw [hq] at hm
      cases hmax : maxPrio xs with
      | none => rw [hmax] at hm; exact le_of_eq (Option.some.inj hm)
      | some r =>
        rw [hmax] at hm
        have := Option.some.inj hm
        omega
    · cases hxp : x.priority_i with
      | none =>
        rw [hxp] at hm
        exact ih hm j hj' q hq
      | some p =>
        rw [hxp] at hm
        cases hmax : maxPrio xs with
        | none => exact absurd hq (by rw [(maxPrio_none hmax) j hj']; simp)
        | some r =>
          rw [hmax] at hm
          have h1 := ih hmax j hj' q hq
          have := Option.some.inj hm
          omega

theorem minPrio_none {l : List JobRec} (hm : minPrio l = none) :
    ∀ j ∈ l, j.priority_i = none := by
  induction l with
  | nil => intro j hj; cases hj
  | cons x xs ih =>
    intro j hj
    simp only [minPrio] at hm
    cases hxp : x.priority_i with
    | none =>
      rw [hxp] at hm
      rcases List.mem_cons.mp hj with rfl | hj'
      · exact hxp
      · exact ih hm j hj'
    | some p =>
      rw [hxp] at hm
      cases hmax : minPrio xs <;> rw [hmax] at hm <;> cases hm

theorem minPrio_ge {l : List JobRec} {m : Int} (hm : minPrio l = some m) :
    ∀ j ∈ l, ∀ q : Int, j.priority_i = some q → m ≤ q := by
  induction l generalizing m with
  | nil => intro j hj; cases hj
  | cons x xs ih =>
    intro j hj q hq
    simp only [minPrio] at hm
    rcases List.mem_cons.mp hj with rfl | hj'
    · rw [hq] at hm
      cases hmax : minPrio xs with
      | none => rw [hmax] at hm; exact le_of_eq (Option.some.inj hm).symm
      | some r =>
        rw [hmax] at hm
        have := Option.some.inj hm
        omega
    · cases hxp : x.priority_i with
      | none =>
        rw [hxp] at hm
        exact ih hm j hj' q hq
      | some p =>
        rw [hxp] at hm
        cases hmax : minPrio xs with
        | none => exact absurd hq (by rw [(minPrio_none hmax) j hj']; simp)
        | some r =>
          rw [hmax] at hm
          have h1 := ih hmax j hj' q hq
          have := Option.some.inj hm
          omega

theorem jobsInv_map {l : List JobRec} {f : JobRec → JobRec}
    (hid : ∀ x, (f x).id = x.id)
    (hcoup : ∀ x ∈ l, Coupled x → Coupled (f x))
    (hpr : ∀ a b, a ∈ l → b ∈ l → JRel a b →
      ∀ p : Int, (f a).priority_i = some p → (f b).priority_i ≠ some p)
    (hinv : JobsInv l) : JobsInv (l.map f) := by
  refine ⟨?_, ?_⟩
  · refine pairwise_map_of_mem (fun a b ha hb hr => ⟨?_, hpr a b ha hb hr⟩) hinv.pairs
    rw [hid, hid]; exact hr.1
  · intro j' hj'
    rcases List.mem_map.mp hj' with ⟨x, hx, rfl⟩
    exact hcoup x hx (hinv.coupling x hx)

theorem findJob_mem {db : DB} {jid : Nat} {j : JobRec} (h : findJob db jid = some j) :
    j ∈ db.jobs ∧ j.id = jid := by
  refine ⟨List.mem_of_find?_eq_some h, ?_⟩
  have := List.find?_some h
  simpa using this

/-- Updating the single row with the given key and a row-key-preserving
change preserves the queue invariant, provided the new priority of that
row collides with no other priority. -/
theorem jobsInv_upd_waiting {l : List JobRec} {jid : Nat} {g : JobRec → JobRec} {newP : Int}
    (hid : ∀ x, (g x).id = x.id)
    (hg : ∀ x ∈ l, x.id = jid →
      (g x).priority_i = some newP ∧ (g x).idState = JState.waiting)
    (hfresh : ∀ j ∈ l, j.id ≠ jid → ∀ q : Int, j.priority_i = some q → q ≠ newP)
    (hinv : JobsInv l) :
    JobsInv (l.map (fun x => if x.id = jid then g x else x)) := by
  refine jobsInv_map ?_ ?_ ?_ hinv
  · intro x; by_cases hx : x.id = jid <;> simp [hx, hid]
  · intro x hx hcx
    by_cases hxj : x.id = jid
    · have := hg x hx hxj
      simp only [if_pos hxj]
      unfold Coupled
      rw [this.1, this.2]
      simp
    · simpa [hxj] using hcx
  · intro a b ha hb hrel p hpa hpb
    by_cases haj : a.id = jid <;> by_cases hbj : b.id = jid
    · exact hrel.1 (haj.trans hbj.symm)
    · simp only [if_pos haj] at hpa
      simp only [if_neg hbj] at hpb
      have hp : p = newP := by
        have := (hg a ha haj).1
        rw [this] at hpa
        exact (Option.some.inj hpa).symm
      exact hfresh b hb hbj p hpb hp
    · simp only [if_neg haj] at hpa
      simp only [if_pos hbj] at hpb
      have hp : p = newP := by
        have := (hg b hb hbj).1
        rw [this] at hpb
        exact (Option.some.inj hpb).symm
      exact hfresh a ha haj p hpa hp
    · simp only [if_neg haj] at hpa
      simp only [if_neg hbj] at hpb
      exact hrel.2 p hpa hpb

/-- Updating the single row with the given key so that it leaves the
Waiting state with a null priority preserves the queue invariant. -/
theorem jobsInv_upd_unwaiting {l : List JobRec} {jid : Nat} {g : JobRec → JobRec}
    (hid : ∀ x, (g x).id = x.id)
    (hg : ∀ x ∈ l, x.id = jid →
      (g x).priority_i = none ∧ (g x).idState ≠ JState.waiting)
    (hinv : JobsInv l) :
    JobsInv (l.map (fun x => if x.id = jid then g x else x)) := by
  refine jobsInv_map ?_ ?_ ?_ hinv
  · intro x; by_cases hx : x.id = jid <;> simp [hx, hid]
  · intro x hx hcx
    by_cases hxj : x.id = jid
    · have := hg x hx hxj
      simp only [if_pos hxj]
      unfold Coupled
      rw [this.1]
      simp [this.2]
    · simpa [hxj] using hcx
  · intro a b ha hb hrel p hpa hpb
    by_cases haj : a.id = jid <;> by_cases hbj : b.id = jid
    · exact hrel.1 (haj.trans hbj.symm)
    · simp only [if_pos haj] at hpa
      rw [(hg a ha haj).1] at hpa
      cases hpa
    · simp only [if_pos hbj] at hpb
      rw [(hg b hb hbj).1] at hpb
      cases hpb
    · simp only [if_neg haj] at hpa
      simp only [if_neg hbj] at hpb
      exact hrel.2 p hpa hpb

theorem prioInOpen_true {j : JobRec} {a b : Int} :
    prioInOpen j a b = true ↔ ∃ p : Int, j.priority_i = some p ∧ a < p ∧ p < b := by
  unfold prioInOpen
  cases hp : j.priority_i <;> simp

theorem prioInHalf_true {j : JobRec} {a b : Int} :
    prioInHalf j a b = true ↔ ∃ p : Int, j.priority_i = some p ∧ a < p ∧ p ≤ b := by
  unfold prioInHalf
  cases hp : j.priority_i <;> simp

/-- The priority shift of a reorder toward the head (after job earlier in
the queue): the rows strictly between the two priorities move up by one
and the moved row lands right after the after row; the invariant is
preserved. -/
theorem jobsInv_reorder_lt {l : List JobRec} {jid : Nat} {t orig : Int} {job : JobRec}
    (hjob : job ∈ l) (hjid : job.id = jid) (hjpr : job.priority_i = some orig)
    (hjw : job.idState = JState.waiting) (hlt : t < orig) (hinv : JobsInv l) :
    JobsInv ((l.map (fun j =>
        if prioInOpen j t orig then { j with priority_i := j.priority_i.map (fun p => p + 1) }
        else j)).map
      (fun j => if j.id = jid then { j with priority_i := some (t + 1) } else j)) := by
  rw [List.map_map]
  set shift : JobRec → JobRec := fun j =>
    if prioInOpen j t orig then { j with priority_i := j.priority_i.map (fun p => p + 1) }
    else j with hshift
  have hshift_id : ∀ x, (shift x).id = x.id := by
    intro x
    by_cases h : prioInOpen x t orig = true <;> simp [hshift, h]
  have hshift_st : ∀ x, (shift x).idState = x.idState := by
    intro x
    by_cases h : prioInOpen x t orig = true <;> simp [hshift, h]
  have hf_pr : ∀ x, x.id ≠ jid →
      ((fun j => if j.id = jid then { j with priority_i := some (t + 1) } else j) ∘ shift)
        x = shift x := by
    intro x hx
    simp only [Function.comp]
    rw [if_neg (by rw [hshift_id]; exact hx)]
  have hf_m : ∀ x, x.id = jid →
      (((fun j => if j.id = jid then { j with priority_i := some (t + 1) } else j) ∘ shift)
        x).priority_i = some (t + 1) ∧
      (((fun j => if j.id = jid then { j with priority_i := some (t + 1) } else j) ∘ shift)
        x).idState = x.idState := by
    intro x hx
    simp only [Function.comp]
    rw [if_pos (by rw [hshift_id]; exact hx)]
    exact ⟨rfl, hshift_st x⟩
  refine jobsInv_map ?_ ?_ ?_ hinv
  · intro x
    by_cases hx : x.id = jid
    · simp only [Function.comp]
      rw [if_pos (by rw [hshift_id]; exact hx)]
      exact hshift_id x
    · rw [hf_pr x hx]; exact hshift_id x
  · intro x hx hcx
    by_cases hxj : x.id = jid
    · have hxjob : x = job := eq_of_mem_of_id hinv.pairs hx hjob (hxj.trans hjid.symm)
      unfold Coupled
      rw [(hf_m x hxj).1, (hf_m x hxj).2, hxjob, hjw]
      simp
    · rw [hf_pr x hxj]
      by_cases hs : prioInOpen x t orig = true
      · rcases prioInOpen_true.mp hs with ⟨q, hq, _, _⟩
        unfold Coupled at hcx ⊢
        rw [hshift_st]
        simp only [hshift, if_pos hs, hq]
        rw [hq] at hcx
        simpa using hcx
      · simp [hshift, hs]
        exact hcx
  · intro a b ha hb hrel p hpa hpb
    by_cases haj : a.id = jid <;> by_cases hbj : b.id = jid
    · exact hrel.1 (haj.trans hbj.symm)
    · -- a is the moved job, so p = t + 1
      have hajob : a = job := eq_of_mem_of_id hinv.pairs ha hjob (haj.trans hjid.symm)
      rw [(hf_m a haj).1] at hpa
      have hp : p = t + 1 := (Option.some.inj hpa).symm
      rw [hf_pr b hbj] at hpb
      by_cases hs : prioInOpen b t orig = true
      · rcases prioInOpen_true.mp hs with ⟨q, hq, hq1, _⟩
        simp only [hshift, if_pos hs, hq] at hpb
        have : q + 1 = p := by simpa using hpb
        omega
      · simp only [hshift, if_neg hs] at hpb
        have hbor : b.priority_i = some orig := by
          have : ¬ (t < p ∧ p < orig) := by
            intro hc
            exact hs (prioInOpen_true.mpr ⟨p, hpb, hc⟩)
          have : p = orig := by omega
          rw [← this]; exact hpb
        exact (hrel.2 orig (by rw [hajob]; exact hjpr)) hbor
    · -- b is the moved job
      have hbjob : b = job := eq_of_mem_of_id hinv.pairs hb hjob (hbj.trans hjid.symm)
      rw [(hf_m b hbj).1] at hpb
      have hp : p = t + 1 := (Option.some.inj hpb).symm
      rw [hf_pr a haj] at hpa
      by_cases hs : prioInOpen a t orig = true
      · rcases prioInOpen_true.mp hs with ⟨q, hq, hq1, _⟩
        simp only [hshift, if_pos hs, hq] at hpa
        have : q + 1 = p := by simpa using hpa
        omega
      · simp only [hshift, if_neg hs] at hpa
        have haor : a.priority_i = some orig := by
          have : ¬ (t < p ∧ p < orig) := by
            intro hc
            exact hs (prioInOpen_true.mpr ⟨p, hpa, hc⟩)
          have : p = orig := by omega
          rw [← this]; exact hpa
        exact (hrel.2 orig haor) (by rw [hbjob]; exact hjpr)
    · -- neither is the moved job
      rw [hf_pr a haj] at hpa
      rw [hf_pr b hbj] at hpb
      by_cases hsa : prioInOpen a t orig = true <;> by_cases hsb : prioInOpen b t orig = true
      · rcases prioInOpen_true.mp hsa with ⟨qa, hqa, _, _⟩
        rcases prioInOpen_true.mp hsb with ⟨qb, hqb, _, _⟩
        simp only [hshift, if_pos hsa, hqa] at hpa
        simp only [hshift, if_pos hsb, hqb] at hpb
        have h1 : qa + 1 = p := by simpa using hpa
        have h2 : qb + 1 = p := by simpa using hpb
        have : qa = qb := by omega
        exact (hrel.2 qa hqa) (by rw [hqb, this])
      · rcases prioInOpen_true.mp hsa with ⟨qa, hqa, hqa1, hqa2⟩
        simp only [hshift, if_pos hsa, hqa] at hpa
        simp only [hshift, if_neg hsb] at hpb
        have h1 : qa + 1 = p := by simpa using hpa
        have : ¬ (t < p ∧ p < orig) := by
          intro hc
          exact hsb (prioInOpen_true.mpr ⟨p, hpb, hc⟩)
        have hpor : p = orig := by omega
        have hbor : b.priority_i = some orig := by rw [← hpor]; exact hpb
        have := eq_of_mem_of_prio hinv.pairs hb hjob hbor hjpr
        exact hbj (by rw [this]; exact hjid)
      · rcases prioInOpen_true.mp hsb with ⟨qb, hqb, hqb1, hqb2⟩
        simp only [hshift, if_neg hsa] at hpa
        simp only [hshift, if_pos hsb, hqb] at hpb
        have h1 : qb + 1 = p := by simpa using hpb
        have : ¬ (t < p ∧ p < orig) := by
          intro hc
          exact hsa (prioInOpen_true.mpr ⟨p, hpa, hc⟩)
        have hpor : p = orig := by omega
        have haor : a.priority_i = some orig := by rw [← hpor]; exact hpa
        have := eq_of_mem_of_prio hinv.pairs ha hjob haor hjpr
        exact haj (by rw [this]; exact hjid)
      · simp only [hshift, if_neg hsa] at hpa
        simp only [hshift, if_neg hsb] at hpb
        exact (hrel.2 p hpa) hpb

/-- The priority shift of a reorder toward the tail (after job later in
the queue): the rows in the half-open interval move down by one and the
moved row takes the priority of the after row; the invariant is
preserved. -/
theorem jobsInv_reorder_gt {l : List JobRec} {jid : Nat} {t orig : Int} {job : JobRec}
    (hjob : job ∈ l) (hjid : job.id = jid) (hjpr : job.priority_i = some orig)
    (hjw : job.idState = JState.waiting) (hlt : orig < t) (hinv : JobsInv l) :
    JobsInv ((l.map (fun j =>
        if prioInHalf j orig t then { j with priority_i := j.priority_i.map (fun p => p - 1) }
        else j)).map
      (fun j => if j.id = jid then { j with priority_i := some t } else j)) := by
  rw [List.map_map]
  set shift : JobRec → JobRec := fun j =>
    if prioInHalf j orig t then { j with priority_i := j.priority_i.map (fun p => p - 1) }
    else j with hshift
  have hshift_id : ∀ x, (shift x).id = x.id := by
    intro x
    by_cases h : prioInHalf x orig t = true <;> simp [hshift, h]
  have hshift_st : ∀ x, (shift x).idState = x.idState := by
    intro x
    by_cases h : prioInHalf x orig t = true <;> simp [hshift, h]
  have hf_pr : ∀ x, x.id ≠ jid →
      ((fun j => if j.id = jid then { j with priority_i := some t } else j) ∘ shift)
        x = shift x := by
    intro x hx
    simp only [Function.comp]
    rw [if_neg (by rw [hshift_id]; exact hx)]
  have hf_m : ∀ x, x.id = jid →
      (((fun j => if j.id = jid then { j with priority_i := some t } else j) ∘ shift)
        x).priority_i = some t ∧
      (((fun j => if j.id = jid then { j with priority_i := some t } else j) ∘ shift)
        x).idState = x.idState := by
    intro x hx
    simp only [Function.comp]
    rw [if_pos (by rw [hshift_id]; exact hx)]
    exact ⟨rfl, hshift_st x⟩
  refine jobsInv_map ?_ ?_ ?_ hinv
  · intro x
    by_cases hx : x.id = jid
    · simp only [Function.comp]
      rw [if_pos (by rw [hshift_id]; exact hx)]
      exact hshift_id x
    · rw [hf_pr x hx]; exact hshift_id x
  · intro x hx hcx
    by_cases hxj : x.id = jid
    · have hxjob : x = job := eq_of_mem_of_id hinv.pairs hx hjob (hxj.trans hjid.symm)
      unfold Coupled
      rw [(hf_m x hxj).1, (hf_m x hxj).2, hxjob, hjw]
      simp
    · rw [hf_pr x hxj]
      by_cases hs : prioInHalf x orig t = true
      · rcases prioInHalf_true.mp hs with ⟨q, hq, _, _⟩
        unfold Coupled at hcx ⊢
        rw [hshift_st]
        simp only [hshift, if_pos hs, hq]
        rw [hq] at hcx
        simpa using hcx
      · simp [hshift, hs]
        exact hcx
  · intro a b ha hb hrel p hpa hpb
    by_cases haj : a.id = jid <;> by_cases hbj : b.id = jid
    · exact hrel.1 (haj.trans hbj.symm)
    · -- a is the moved job, so p = t
      rw [(hf_m a haj).1] at hpa
      have hp : p = t := (Option.some.inj hpa).symm
      rw [hf_pr b hbj] at hpb
      by_cases hs : prioInHalf b orig t = true
      · rcases prioInHalf_true.mp hs with ⟨q, hq, hq1, hq2⟩
        simp only [hshift, if_pos hs, hq] at hpb
        have : q - 1 = p := by simpa using hpb
        omega
      · simp only [hshift, if_neg hs] at hpb
        have : ¬ (orig < p ∧ p ≤ t) := by
          intro hc
          exact hs (prioInHalf_true.mpr ⟨p, hpb, hc⟩)
        omega
    · -- b is the moved job
      rw [(hf_m b hbj).1] at hpb
      have hp : p = t := (Option.some.inj hpb).symm
      rw [hf_pr a haj] at hpa
      by_cases hs : prioInHalf a orig t = true
      · rcases prioInHalf_true.mp hs with ⟨q, hq, hq1, hq2⟩
        simp only [hshift, if_pos hs, hq] at hpa
        have : q - 1 = p := by simpa using hpa
        omega
      · simp only [hshift, if_neg hs] at hpa
        have : ¬ (orig < p ∧ p ≤ t) := by
          intro hc
          exact hs (prioInHalf_true.mpr ⟨p, hpa, hc⟩)
        omega
    · -- neither is the moved job
      rw [hf_pr a haj] at hpa
      rw [hf_pr b hbj] at hpb
      by_cases hsa : prioInHalf a orig t = true <;> by_cases hsb : prioInHalf b orig t = true
      · rcases prioInHalf_true.mp hsa with ⟨qa, hqa, _, _⟩
        rcases prioInHalf_true.mp hsb with ⟨qb, hqb, _, _⟩
        simp only [hshift, if_pos hsa, hqa] at hpa
        simp only [hshift, if_pos hsb, hqb] at hpb
        have h1 : qa - 1 = p := by simpa using hpa
        have h2 : qb - 1 = p := by simpa using hpb
        have : qa = qb := by omega
        exact (hrel.2 qa hqa) (by rw [hqb, this])
      · rcases prioInHalf_true.mp hsa with ⟨qa, hqa, hqa1, hqa2⟩
        simp only [hshift, if_pos hsa, hqa] at hpa
        simp only [hshift, if_neg hsb] at hpb
        have h1 : qa - 1 = p := by simpa using hpa
        have : ¬ (orig < p ∧ p ≤ t) := by
          intro hc
          exact hsb (prioInHalf_true.mpr ⟨p, hpb, hc⟩)
        have hpor : p = orig := by omega
        have hbor : b.priority_i = some orig := by rw [← hpor]; exact hpb
        have := eq_of_mem_of_prio hinv.pairs hb hjob hbor hjpr
        exact hbj (by rw [this]; exact hjid)
      · rcases prioInHalf_true.mp hsb with ⟨qb, hqb, hqb1, hqb2⟩
        simp only [hshift, if_neg hsa] at hpa
        simp only [hshift, if_pos hsb, hqb] at hpb
        have h1 : qb - 1 = p := by simpa using hpb
        have : ¬ (orig < p ∧ p ≤ t) := by
          intro hc
          exact hsa (prioInHalf_true.mpr ⟨p, hpa, hc⟩)
        have hpor : p = orig := by omega
        have haor : a.priority_i = some orig := by rw [← hpor]; exact hpa
        have := eq_of_mem_of_prio hinv.pairs ha hjob haor hjpr
        exact haj (by rw [this]; exact hjid)
      · simp only [hshift, if_neg hsa] at hpa
        simp only [hshift, if_neg hsb] at hpb
        exact (hrel.2 p hpa) hpb

theorem le_foldl_max_init (l : List JobRec) (a : Nat) :
    a ≤ l.foldl (fun acc j => max acc j.id) a := by
  induction l generalizing a with
  | nil => simp
  | cons x xs ih =>
    simp only [List.foldl_cons]
    exact le_trans (le_max_left a x.id) (ih (max a x.id))

theorem mem_le_foldl_max {l : List JobRec} {j : JobRec} (hj : j ∈ l) (a : Nat) :
    j.id ≤ l.foldl (fun acc j => max acc j.id) a := by
  induction l generalizing a with
  | nil => cases hj
  | cons x xs ih =>
    simp only [List.foldl_cons]
    rcases List.mem_cons.mp hj with rfl | hj'
    · exact le_trans (le_max_right a j.id) (le_foldl_max_init xs (max a j.id))
    · exact ih hj' (max a x.id)

theorem jobsInv_append {l : List JobRec} {new : JobRec}
    (hco : Coupled new) (hnpr : new.priority_i = none)
    (hnid : ∀ j ∈ l, j.id ≠ new.id) (hinv : JobsInv l) :
    JobsInv (l ++ [new]) := by
  refine ⟨?_, ?_⟩
  · rw [List.pairwise_append]
    refine ⟨hinv.pairs, List.pairwise_singleton _ _, ?_⟩
    intro a ha b hb
    rcases List.mem_singleton.mp hb with rfl
    exact ⟨hnid a ha, fun p hpa => by rw [hnpr]; simp⟩
  · intro j hj
    rcases List.mem_append.mp hj with hj' | hj'
    · exact hinv.coupling j hj'
    · rcases List.mem_singleton.mp hj' with rfl
      exact hco

theorem jobsInv_filter {l : List JobRec} (pred : JobRec → Bool) (hinv : JobsInv l) :
    JobsInv (l.filter pred) :=
  ⟨hinv.pairs.sublist (List.filter_sublist l), fun j hj =>
    hinv.coupling j (List.mem_of_mem_filter hj)⟩

theorem inv_updJob_waiting {db : DB} {jid : Nat} {g : JobRec → JobRec} (newP : Int)
    (hid : ∀ x, (g x).id = x.id)
    (hg : ∀ x ∈ db.jobs, x.id = jid →
      (g x).priority_i = some newP ∧ (g x).idState = JState.waiting)
    (hfresh : ∀ j ∈ db.jobs, j.id ≠ jid → ∀ q : Int, j.priority_i = some q → q ≠ newP)
    (hinv : Inv db) : Inv (updJob db jid g) :=
  jobsInv_upd_waiting hid hg hfresh hinv

theorem inv_updJob_unwaiting {db : DB} {jid : Nat} {g : JobRec → JobRec}
    (hid : ∀ x, (g x).id = x.id)
    (hg : ∀ x ∈ db.jobs, x.id = jid →
      (g x).priority_i = none ∧ (g x).idState ≠ JState.waiting)
    (hinv : Inv db) : Inv (updJob db jid g) :=
  jobsInv_upd_unwaiting hid hg hinv

theorem inv_reorder_lt {db : DB} {jid : Nat} {t orig : Int} {job : JobRec}
    (hjob : job ∈ db.jobs) (hjid : job.id = jid) (hjpr : job.priority_i = some orig)
    (hjw : job.idState = JState.waiting) (hlt : t < orig) (hinv : Inv db) :
    Inv (updJob { db with jobs := db.jobs.map (shiftUp t orig) } jid (setPrio (t + 1))) :=
  jobsInv_reorder_lt hjob hjid hjpr hjw hlt hinv

theorem inv_reorder_gt {db : DB} {jid : Nat} {t orig : Int} {job : JobRec}
    (hjob : job ∈ db.jobs) (hjid : job.id = jid) (hjpr : job.priority_i = some orig)
    (hjw : job.idState = JState.waiting) (hlt : orig < t) (hinv : Inv db) :
    Inv (updJob { db with jobs := db.jobs.map (shiftDown orig t) } jid (setPrio t)) :=
  jobsInv_reorder_gt hjob hjid hjpr hjw hlt hinv

theorem newTailPrio_fresh {db : DB} :
    ∀ j ∈ db.jobs, ∀ q : Int, j.priority_i = some q → q ≠ newTailPrio db := by
  intro j hj q hq
  unfold newTailPrio
  cases hmax : maxPrio db.jobs with
  | none => rw [maxPrio_none hmax j hj] at hq; cases hq
  | some m =>
    have := maxPrio_le hmax j hj q hq
    show q ≠ m + 1
    omega

theorem newHeadPrio_fresh {db : DB} :
    ∀ j ∈ db.jobs, ∀ q : Int, j.priority_i = some q → q ≠ newHeadPrio db := by
  intro j hj q hq
  unfold newHeadPrio
  cases hmin : minPrio db.jobs with
  | none => rw [minPrio_none hmin j hj] at hq; cases hq
  | some m =>
    have := minPrio_ge hmin j hj q hq
    show q ≠ m - 1
    omega

theorem inv_insert (db : DB) (name : String) (fid uid : Nat) (hinv : Inv db) :
    Inv ((insert_job db name fid uid).state) := by
  unfold insert_job
  by_cases h : name = ""
  · rw [if_pos h]; exact hinv
  · rw [if_neg h]
    show JobsInv (db.jobs ++ [_])
    refine jobsInv_append ?_ rfl ?_ hinv
    · unfold Coupled
      simp
    · intro j hj hid
      have h1 := mem_le_foldl_max hj 0
      have h2 : j.id = (List.foldl (fun acc j => max acc j.id) 0 db.jobs) + 1 := hid
      omega

theorem inv_enqueue (db : DB) (jid : Nat) (hinv : Inv db) :
    Inv ((enqueue_created_job db jid).state) := by
  unfold enqueue_created_job
  cases hfind : findJob db jid with
  | none => exact hinv
  | some job =>
    dsimp only
    by_cases hst : job.idState ≠ JState.created
    · rw [if_pos hst]; exact hinv
    · rw [if_neg hst]
      cases hchk : check_can_be_printed_job db jid with
      | error e => exact hinv
      | ok b =>
        exact inv_updJob_waiting (newTailPrio db) (fun x => rfl)
          (fun x _ _ => ⟨rfl, rfl⟩) (fun j hj _ => newTailPrio_fresh j hj) hinv

theorem inv_setPrinting (db : DB) (now jid : Nat) (hinv : Inv db) :
    Inv ((set_printing_job db now jid).state) := by
  unfold set_printing_job
  cases hfind : findJob db jid with
  | none => exact hinv
  | some job =>
    dsimp only
    by_cases h1 : job.canBePrinted = false ∨ job.idState ≠ JState.waiting
    · rw [if_pos h1]; exact hinv
    · rw [if_neg h1]
      by_cases h2 : (assigned_printer db jid).isNone = true
      · rw [if_pos h2]; exact hinv
      · rw [if_neg h2]
        cases hfile : db.files.find? (fun f => f.id == job.idFile) with
        | none => exact hinv
        | some file =>
          refine inv_updJob_unwaiting (fun x => rfl) (fun x _ _ => ⟨rfl, ?_⟩) hinv
          intro h
          cases h

theorem inv_setFinished (db : DB) (now jid : Nat) (hinv : Inv db) :
    Inv ((set_finished_job db now jid).state) := by
  unfold set_finished_job
  cases hfind : findJob db jid with
  | none => exact hinv
  | some job =>
    rcases findJob_mem hfind with ⟨hmem, hid⟩
    dsimp only
    by_cases hst : job.idState ≠ JState.printing
    · rw [if_pos hst]; exact hinv
    · rw [if_neg hst]
      rw [not_not] at hst
      have hdb1 : Inv (updJob db jid (finishUpd now)) := by
        refine inv_updJob_unwaiting (fun x => rfl) ?_ hinv
        intro x hx hxj
        have hxjob : x = job := eq_of_mem_of_id hinv.pairs hx hmem (by rw [hxj, hid])
        refine ⟨?_, ?_⟩
        · show x.priority_i = none
          have hc := hinv.coupling x hx
          unfold Coupled at hc
          rw [hxjob] at hc ⊢
          by_contra hne
          have hw := hc.mp hne
          rw [hst] at hw
          cases hw
        · intro h
          cases h
      cases hap : assigned_printer (updJob db jid (finishUpd now)) jid with
      | none => exact hdb1
      | some printer =>
        dsimp only
        cases hfe : finish_extruders printer jid (updJob db jid (finishUpd now)).jobExtruders with
        | ok rows => exact hdb1
        | error er =>
          cases er with
          | mk e rows => exact hdb1

theorem inv_setDone (db : DB) (jid : Nat) (succeed : Bool) (hinv : Inv db) :
    Inv ((set_done_job db jid succeed).state) := by
  unfold set_done_job
  cases hfind : findJob db jid with
  | none => exact hinv
  | some job =>
    rcases findJob_mem hfind with ⟨hmem, hid⟩
    dsimp only
    by_cases hst : job.idState ≠ JState.finished
    · rw [if_pos hst]; exact hinv
    · rw [if_neg hst]
      rw [not_not] at hst
      show Inv (updJob db jid (doneUpd succeed))
      refine inv_updJob_unwaiting (fun x => rfl) ?_ hinv
      intro x hx hxj
      have hxjob : x = job := eq_of_mem_of_id hinv.pairs hx hmem (by rw [hxj, hid])
      refine ⟨?_, ?_⟩
      · show x.priority_i = none
        have hc := hinv.coupling x hx
        unfold Coupled at hc
        rw [hxjob] at hc ⊢
        by_contra hne
        have hw := hc.mp hne
        rw [hst] at hw
        cases hw
      · intro h
        cases h

theorem inv_reorder (db : DB) (jid : Nat) (afterId : Option Nat) (hinv : Inv db) :
    Inv ((reorder_job_in_queue db jid afterId).state) := by
  unfold reorder_job_in_queue
  cases hfind : findJob db jid with
  | none => exact hinv
  | some job =>
    rcases findJob_mem hfind with ⟨hmem, hid⟩
    dsimp only
    by_cases hst : job.idState ≠ JState.waiting
    · rw [if_pos hst]; exact hinv
    · rw [if_neg hst]
      rw [not_not] at hst
      cases afterId with
      | none =>
        dsimp only
        cases hmin : minPrio db.jobs with
        | none => exact hinv
        | some m =>
          refine inv_updJob_waiting (m - 1) (fun x => rfl) ?_ ?_ hinv
          · intro x hx hxj
            have hxjob : x = job := eq_of_mem_of_id hinv.pairs hx hmem (by rw [hxj, hid])
            exact ⟨rfl, by rw [show (setPrio (m - 1) x).idState = x.idState from rfl,
              hxjob, hst]⟩
          · intro j hj _ q hq
            have := minPrio_ge hmin j hj q hq
            omega
      | some aid =>
        dsimp only
        cases hfa : findJob db aid with
        | none => exact hinv
        | some after =>
          dsimp only
          by_cases ha1 : after.idState ≠ JState.waiting
          · rw [if_pos ha1]; exact hinv
          · rw [if_neg ha1]
            by_cases ha2 : job.id = after.id
            · rw [if_pos ha2]; exact hinv
            · rw [if_neg ha2]
              cases hjp : job.priority_i with
              | none =>
                cases hap : after.priority_i with
                | none => exact hinv
                | some t => exact hinv
              | some orig =>
                cases hap : after.priority_i with
                | none => exact hinv
                | some t =>
                  dsimp only
                  by_cases hlt : t < orig
                  · rw [if_pos hlt]
                    exact inv_reorder_lt hmem hid hjp hst hlt hinv
                  · rw [if_neg hlt]
                    by_cases hgt : orig < t
                    · rw [if_pos hgt]
                      exact inv_reorder_gt hmem hid hjp hst hgt hinv
                    · rw [if_neg hgt]
                      exact hinv

theorem inv_requeue (db : DB) (jid : Nat) (mp : Bool) (hinv : Inv db) :
    Inv ((enqueue_printing_or_finished_job db jid mp).state) := by
  unfold enqueue_printing_or_finished_job
  cases hfind : findJob db jid with
  | none => exact hinv
  | some job =>
    dsimp only
    by_cases hst : job.idState ≠ JState.printing ∧ job.idState ≠ JState.finished
    · rw [if_pos hst]; exact hinv
    · rw [if_neg hst]
      cases hchk : check_can_be_printed_job db jid with
      | error e => exact hinv
      | ok b =>
        show Inv (updJob db jid (requeueUpd (if mp then newHeadPrio db else newTailPrio db) b))
        refine inv_updJob_waiting _ (fun x => rfl) (fun x _ _ => ⟨rfl, rfl⟩) ?_ hinv
        intro j hj _ q hq
        cases mp with
        | true => simpa using newHeadPrio_fresh j hj q hq
        | false => simpa using newTailPrio_fresh j hj q hq

theorem inv_reprint (db : DB) (jid : Nat) (hinv : Inv db) :
    Inv ((reprint_done_job db jid).state) := by
  unfold reprint_done_job
  cases hfind : findJob db jid with
  | none => exact hinv
  | some job =>
    dsimp only
    by_cases hst : job.idState ≠ JState.done
    · rw [if_pos hst]; exact hinv
    · rw [if_neg hst]
      cases hchk : check_can_be_printed_job db jid with
      | error e => exact hinv
      | ok b =>
        show Inv (updJob db jid (reprintUpd (newTailPrio db) b))
        exact inv_updJob_waiting (newTailPrio db) (fun x => rfl)
          (fun x _ _ => ⟨rfl, rfl⟩) (fun j hj _ => newTailPrio_fresh j hj) hinv

theorem inv_assign (db : DB) (pid jid : Nat) (hinv : Inv db) :
    Inv ((assign_job_to_printer db pid jid).state) := by
  unfold assign_job_to_printer
  cases hfp : findPrinter db pid with
  | none =>
    cases hfj : findJob db jid with
    | none => exact hinv
    | some job => exact hinv
  | some printer =>
    cases hfj : findJob db jid with
    | none => exact hinv
    | some job =>
      dsimp only
      by_cases h1 : job.idState ≠ JState.waiting
      · rw [if_pos h1]; exact hinv
      · rw [if_neg h1]
        by_cases h2 : job.canBePrinted = false
        · rw [if_pos h2]; exact hinv
        · rw [if_neg h2]
          by_cases h3 : printer.idCurrentJob.isSome = true
          · rw [if_pos h3]; exact hinv
          · rw [if_neg h3]; exact hinv

theorem inv_delete (db : DB) (jid : Nat) (hinv : Inv db) :
    Inv ((delete_job db jid).state) := by
  unfold delete_job
  exact jobsInv_filter _ hinv

theorem inv_applyOp (op : Op) (db : DB) (hinv : Inv db) : Inv ((applyOp op db).state) := by
  cases op with
  | insert name fid uid => exact inv_insert db name fid uid hinv
  | enqueue jid => exact inv_enqueue db jid hinv
  | startPrinting now jid => exact inv_setPrinting db now jid hinv
  | finishJob now jid => exact inv_setFinished db now jid hinv
  | markDone jid succeed => exact inv_setDone db jid succeed hinv
  | requeue jid mp => exact inv_requeue db jid mp hinv
  | reprint jid => exact inv_reprint db jid hinv
  | reorder jid afterId => exact inv_reorder db jid afterId hinv
  | assign pid jid => exact inv_assign db pid jid hinv
  | delete jid => exact inv_delete db jid hinv

theorem reachable_inv {db : DB} (h : Reachable db) : Inv db := by
  induction h with
  | init db hj _ =>
    constructor
    · rw [hj]; exact List.Pairwise.nil
    · intro j hjm
      rw [hj] at hjm
      cases hjm
  | step db db' _ hs ih =>
    rcases hs with ⟨op, hop⟩
    rw [← hop]
    exact inv_applyOp op db ih

theorem pairwise_imp_of_mem {α : Type} {R S : α → α → Prop} {l : List α}
    (h : ∀ a b, a ∈ l → b ∈ l → R a b → S a b) (hp : l.Pairwise R) : l.Pairwise S := by
  induction l with
  | nil => exact List.Pairwise.nil
  | cons x xs ih =>
    rcases List.pairwise_cons.mp hp with ⟨hx, hxs⟩
    refine List.pairwise_cons.mpr ⟨?_, ?_⟩
    · intro b hb
      exact h x b (List.mem_cons_self _ _) (List.mem_cons_of_mem _ hb) (hx b hb)
    · exact ih (fun a b ha hb hr =>
        h a b (List.mem_cons_of_mem _ ha) (List.mem_cons_of_mem _ hb) hr) hxs

theorem find?_map_upd {l : List JobRec} {jid : Nat} {job : JobRec} {g : JobRec → JobRec}
    (hg : ∀ x, (g x).id = x.id)
    (h : l.find? (fun j => j.id == jid) = some job) :
    (l.map (fun x => if x.id = jid then g x else x)).find? (fun j => j.id == jid) =
      some (g job) := by
  induction l with
  | nil => cases h
  | cons x xs ih =>
    by_cases hx : x.id = jid
    · rw [List.find?_cons_of_pos _ (by simpa using hx)] at h
      have hxj : x = job := Option.some.inj h
      rw [List.map_cons, if_pos hx,
        List.find?_cons_of_pos _ (by simp [hg, hx]), hxj]
    · rw [List.find?_cons_of_neg _ (by simpa using hx)] at h
      rw [List.map_cons, if_neg hx,
        List.find?_cons_of_neg _ (by simpa using hx)]
      exact ih h

theorem findJob_updJob {db : DB} {jid : Nat} {job : JobRec} {g : JobRec → JobRec}
    (hg : ∀ x, (g x).id = x.id) (h : findJob db jid = some job) :
    findJob (updJob db jid g) jid = some (g job) :=
  find?_map_upd hg h

theorem mem_updJob_of_ne {db : DB} {jid : Nat} {g : JobRec → JobRec} {j : JobRec}
    (hj : j ∈ db.jobs) (hne : j.id ≠ jid) : j ∈ (updJob db jid g).jobs := by
  unfold updJob
  exact List.mem_map.mpr ⟨j, hj, by rw [if_neg hne]⟩

theorem finish_extruders_ok {printer : PrinterRec} {jid : Nat} :
    ∀ rows : List JobExtruderRec,
    (∀ je ∈ rows, je.idJob = jid →
      ∃ pe, printer.extruders.find? (fun pe => pe.index == je.extruderIndex) = some pe ∧
        pe.idExtruderType.isSome ∧ pe.idMaterial.isSome) →
    finish_extruders printer jid rows = Except.ok (rows.map (fun je =>
      if je.idJob = jid then
        { je with
          idUsedExtruderType :=
            (printer.extruders.find? (fun pe => pe.index == je.extruderIndex)).bind
              (fun pe => pe.idExtruderType),
          idUsedMaterial :=
            (printer.extruders.find? (fun pe => pe.index == je.extruderIndex)).bind
              (fun pe => pe.idMaterial) }
      else je)) := by
  intro rows
  induction rows with
  | nil => intro _; rfl
  | cons je rest ih =>
    intro hall
    have hrest := ih (fun x hx => hall x (List.mem_cons_of_mem _ hx))
    by_cases hj : je.idJob = jid
    · rcases hall je (List.mem_cons_self _ _) hj with ⟨pe, hpe, ht, hm⟩
      rcases Option.isSome_iff_exists.mp ht with ⟨t, htv⟩
      rcases Option.isSome_iff_exists.mp hm with ⟨m, hmv⟩
      unfold finish_extruders
      rw [if_pos hj, hpe]
      dsimp only
      rw [htv, hmv]
      dsimp only
      rw [hrest]
      dsimp only
      rw [List.map_cons, if_pos hj, hpe]
      simp [htv, hmv]
    · unfold finish_extruders
      rw [if_neg hj, hrest, List.map_cons, if_neg hj]

/-! Concrete databases used by the claim theorems and their witnesses. -/

/-- A job row with default run fields, used by the concrete examples. -/
def sampleJob (i : Nat) (st : JState) (pr : Option Int) : JobRec :=
  { id := i, name := "job", idState := st, idFile := 1, idUser := 1,
    priority_i := pr, canBePrinted := true, retries := 0, progress := none,
    startedAt := none, finishedAt := none, estimatedTimeLeft := none,
    interrupted := false, succeed := none }

/-- A database holding the given job rows and nothing else. -/
def jobsOnlyDB (js : List JobRec) : DB :=
  { jobs := js, printers := [], printerStates := [], files := [],
    allowedMaterials := [], allowedExtruders := [], jobExtruders := [] }

/-- Two operational printers and a job that restricts extruder index 0 to
material 1: printer 1 currently holds material 2 (so it must be
rejected), printer 2 holds material 1 (so it must survive). -/
def matcherDB : DB :=
  { jobs := [sampleJob 1 .created none],
    printers := [
      { id := 1, idState := 1, idCurrentJob := none,
        extruders := [{ idExtruderType := some 1, idMaterial := some 2, index := 0 }] },
      { id := 2, idState := 1, idCurrentJob := none,
        extruders := [{ idExtruderType := some 1, idMaterial := some 1, index := 0 }] }],
    printerStates := [{ id := 1, isOperationalState := true }],
    files := [],
    allowedMaterials := [{ idJob := 1, idMaterial := 1, extruderIndex := 0 }],
    allowedExtruders := [],
    jobExtruders := [] }

/-- Five Waiting jobs with the dense priorities 1..5. -/
def denseDB : DB :=
  jobsOnlyDB [sampleJob 1 .waiting (some 1), sampleJob 2 .waiting (some 2),
    sampleJob 3 .waiting (some 3), sampleJob 4 .waiting (some 4),
    sampleJob 5 .waiting (some 5)]

/-- A single Waiting job, the input of the transition-guard scenario. -/
def dbWaitingJob : DB := jobsOnlyDB [sampleJob 1 .waiting (some 1)]

/-- A single Printing job with no printer referencing it. -/
def printingNoPrinterDB : DB := jobsOnlyDB [sampleJob 1 .printing none]

/-- The database left behind when set_finished_job raises on the missing
printer of printingNoPrinterDB: the job row has already been moved to
Finished with its run fields stamped. -/
def printingNoPrinterDBAfter : DB :=
  jobsOnlyDB [{ sampleJob 1 .printing none with
    idState := .finished, finishedAt := some 7, progress := some 100,
    estimatedTimeLeft := some 0 }]

/-- C1.  The spec (section 4.1, restated in the sources of the claim)
requires checkPrintable to return true, or the surviving printer set,
exactly when an operational printer passes the material and
extruder-type check at every extruder index.  On matcherDB the corrected
semantics keeps exactly printer 2, but the source loop deletes printer 1
from the list it is indexing and then reads index 1 of the now
one-element list: check_can_be_printed_job raises IndexError instead of
returning a result (both return formats).  The claim describes the
intended behaviour; the code crashes on it. -/
theorem checkPrintable_indexError_vs_spec :
    check_can_be_printed_job matcherDB 1 = Except.error Err.indexError ∧
    check_usable_printers matcherDB 1 = Except.error Err.indexError ∧
    (printable_spec matcherDB 1).map (fun p => p.id) = [2] :=
  ⟨rfl, rfl, rfl⟩

/-- C3 counterexample.  Calling finishJob on a job in state Waiting does
fail without mutation, but the error raised is InvalidParameter — the
only validation error the source imports — not the InvalidState kind the
claim names: no InvalidState error exists in the code. -/
theorem finishJob_error_is_invalidParameter_not_invalidState :
    (set_finished_job dbWaitingJob 7 1).isErr = true ∧
    (set_finished_job dbWaitingJob 7 1).raisedInvalidState = false ∧
    set_finished_job dbWaitingJob 7 1 = .err .invalidParameter dbWaitingJob :=
  ⟨rfl, rfl, rfl⟩

/-- C3 amended.  For every job whose state fails the state
precondition of a transition, the transition fails with an
InvalidParameter error (the single validation error type of the code,
which the spec calls InvalidState) and returns the database unchanged:
no field of any job is mutated. -/
theorem state_precondition_failures_no_mutation :
    ∀ (db : DB) (now jid pid : Nat) (job : JobRec), findJob db jid = some job →
      ((job.idState ≠ JState.created →
        enqueue_created_job db jid = .err .invalidParameter db) ∧
       (job.idState ≠ JState.waiting →
        set_printing_job db now jid = .err .invalidParameter db) ∧
       (job.idState ≠ JState.printing →
        set_finished_job db now jid = .err .invalidParameter db) ∧
       (job.idState ≠ JState.finished →
        ∀ s : Bool, set_done_job db jid s = .err .invalidParameter db) ∧
       (job.idState ≠ JState.printing → job.idState ≠ JState.finished →
        ∀ mp : Bool, enqueue_printing_or_finished_job db jid mp =
          .err .invalidParameter db) ∧
       (job.idState ≠ JState.done →
        reprint_done_job db jid = .err .invalidParameter db) ∧
       (job.idState ≠ JState.waiting →
        ∀ afterId : Option Nat, reorder_job_in_queue db jid afterId =
          .err .invalidParameter db) ∧
       (job.idState ≠ JState.waiting →
        ∀ printer : PrinterRec, findPrinter db pid = some printer →
          assign_job_to_printer db pid jid = .err .invalidParameter db)) := by
  intro db now jid pid job hfind
  refine ⟨?_, ?_, ?_, ?_, ?_, ?_, ?_, ?_⟩
  · intro h
    unfold enqueue_created_job
    rw [hfind]
    dsimp only
    rw [if_pos h]
  · intro h
    unfold set_printing_job
    rw [hfind]
    dsimp only
    rw [if_pos (Or.inr h)]
  · intro h
    unfold set_finished_job
    rw [hfind]
    dsimp only
    rw [if_pos h]
  · intro h s
    unfold set_done_job
    rw [hfind]
    dsimp only
    rw [if_pos h]
  · intro h1 h2 mp
    unfold enqueue_printing_or_finished_job
    rw [hfind]
    dsimp only
    rw [if_pos ⟨h1, h2⟩]
  · intro h
    unfold reprint_done_job
    rw [hfind]
    dsimp only
    rw [if_pos h]
  · intro h afterId
    unfold reorder_job_in_queue
    rw [hfind]
    dsimp only
    rw [if_pos h]
  · intro h printer hp
    unfold assign_job_to_printer
    rw [hfind, hp]
    dsimp only
    rw [if_pos h]

/-- C3 witness: the amended statement applied to the single-Waiting-job
database: finishJob and enqueueJob both fail there with InvalidParameter
and leave the database untouched. -/
theorem state_precondition_failures_no_mutation_witness :
    set_finished_job dbWaitingJob 7 1 = .err .invalidParameter dbWaitingJob ∧
    enqueue_created_job dbWaitingJob 1 = .err .invalidParameter dbWaitingJob :=
  ⟨(state_precondition_failures_no_mutation dbWaitingJob 7 1 0
      (sampleJob 1 .waiting (some 1)) rfl).2.2.1 (by decide),
   (state_precondition_failures_no_mutation dbWaitingJob 7 1 0
      (sampleJob 1 .waiting (some 1)) rfl).1 (by decide)⟩

/-- C4.  The claim states that every exposed operation checks all
preconditions before any mutation, so an error implies an unchanged
database.  finishJob violates this: its own comment says it checks that
the assigned printer is set, but the code only checks the state, updates
the job row, and dereferences the missing printer afterwards.  On a
Printing job with no printer referencing it the call raises (an
attribute access on None) after the row has already been moved to
Finished — a partial write. -/
theorem finishJob_partial_write_on_missing_printer :
    set_finished_job printingNoPrinterDB 7 1 =
      .err .attributeError printingNoPrinterDBAfter ∧
    (findJob printingNoPrinterDB 1).map (fun j => j.idState) = some JState.printing ∧
    (findJob printingNoPrinterDBAfter 1).map (fun j => j.idState) = some JState.finished ∧
    printingNoPrinterDBAfter ≠ printingNoPrinterDB :=
  ⟨rfl, rfl, rfl, by decide⟩

theorem map_congr_mem {α β : Type} {l : List α} {f g : α → β}
    (h : ∀ a ∈ l, f a = g a) : l.map f = l.map g := by
  induction l with
  | nil => rfl
  | cons x xs ih =>
    rw [List.map_cons, List.map_cons, h x (List.mem_cons_self _ _),
      ih (fun a ha => h a (List.mem_cons_of_mem _ ha))]

/-- C2.  Reordering a Waiting job behind another Waiting job shifts
exactly the Waiting jobs whose priority lies in the affected interval —
up by one over the open interval (target, orig) when the job moves
toward the head, with the moved job landing on target + 1; down by one
over the half-open interval (orig, target] when it moves toward the
tail, with the moved job landing on target — while every other job keeps
its priority; and on the dense queue [1,2,3,4,5] moving job 3 after
job 1 yields the order job1, job3, job2, job4, job5 with dense
priorities 1..5. -/
theorem reorder_interval_shift :
    (∀ (db : DB) (jid aid : Nat) (job after : JobRec) (orig t : Int),
      findJob db jid = some job → findJob db aid = some after →
      job.idState = JState.waiting → after.idState = JState.waiting →
      job.id ≠ after.id →
      job.priority_i = some orig → after.priority_i = some t →
      (∀ j ∈ db.jobs, j.priority_i ≠ none → j.idState = JState.waiting) →
      ((t < orig → reorder_job_in_queue db jid (some aid) =
          .ok { db with jobs := db.jobs.map (fun j =>
            if j.id = jid then { j with priority_i := some (t + 1) }
            else if j.idState = JState.waiting ∧ prioInOpen j t orig = true then
              { j with priority_i := j.priority_i.map (fun p => p + 1) }
            else j) }) ∧
       (orig < t → reorder_job_in_queue db jid (some aid) =
          .ok { db with jobs := db.jobs.map (fun j =>
            if j.id = jid then { j with priority_i := some t }
            else if j.idState = JState.waiting ∧ prioInHalf j orig t = true then
              { j with priority_i := j.priority_i.map (fun p => p - 1) }
            else j) }))) ∧
    reorder_job_in_queue denseDB 3 (some 1) =
      .ok (jobsOnlyDB [sampleJob 1 .waiting (some 1), sampleJob 2 .waiting (some 3),
        sampleJob 3 .waiting (some 2), sampleJob 4 .waiting (some 4),
        sampleJob 5 .waiting (some 5)]) := by
  refine ⟨?_, by rfl⟩
  intro db jid aid job after orig t hfind hfa hjw haw hne hjpr hapr hcoup
  have hstart : ∀ r : StepResult, reorder_job_in_queue db jid (some aid) = r ↔
      (if t < orig then
        StepResult.ok (updJob { db with jobs := db.jobs.map (shiftUp t orig) } jid
          (setPrio (t + 1)))
      else if orig < t then
        StepResult.ok (updJob { db with jobs := db.jobs.map (shiftDown orig t) } jid
          (setPrio t))
      else StepResult.ok db) = r := by
    intro r
    unfold reorder_job_in_queue
    rw [hfind]
    dsimp only
    rw [if_neg (by rw [hjw]; exact fun h => h rfl)]
    rw [hfa]
    dsimp only
    rw [if_neg (by rw [haw]; exact fun h => h rfl), if_neg hne, hjpr, hapr]
  constructor
  · intro hlt
    rw [hstart, if_pos hlt]
    refine congrArg StepResult.ok ?_
    unfold updJob
    dsimp only
    rw [List.map_map]
    refine congrArg (fun l => { db with jobs := l }) ?_
    refine map_congr_mem ?_
    intro j hj
    simp only [Function.comp]
    by_cases hjid : j.id = jid
    · have hsid : (shiftUp t orig j).id = j.id := by
        unfold shiftUp
        by_cases hs : prioInOpen j t orig = true <;> simp [hs]
      rw [if_pos hjid]
      rw [show (if (shiftUp t orig j).id = jid then setPrio (t + 1) (shiftUp t orig j)
          else shiftUp t orig j) = setPrio (t + 1) (shiftUp t orig j) from
        if_pos (by rw [hsid]; exact hjid)]
      unfold shiftUp setPrio
      by_cases hs : prioInOpen j t orig = true <;> simp [hs]
    · have hsid : (shiftUp t orig j).id = j.id := by
        unfold shiftUp
        by_cases hs : prioInOpen j t orig = true <;> simp [hs]
      rw [if_neg hjid]
      rw [show (if (shiftUp t orig j).id = jid then setPrio (t + 1) (shiftUp t orig j)
          else shiftUp t orig j) = shiftUp t orig j from
        if_neg (by rw [hsid]; exact hjid)]
      by_cases hs : prioInOpen j t orig = true
      · have hw : j.idState = JState.waiting := by
          rcases prioInOpen_true.mp hs with ⟨p, hp, _, _⟩
          exact hcoup j hj (by rw [hp]; simp)
        rw [if_pos ⟨hw, hs⟩]
        unfold shiftUp
        rw [if_pos hs]
      · rw [if_neg (fun hc => hs hc.2)]
        unfold shiftUp
        rw [if_neg hs]
  · intro hgt
    rw [hstart, if_neg (by omega), if_pos hgt]
    refine congrArg StepResult.ok ?_
    unfold updJob
    dsimp only
    rw [List.map_map]
    refine congrArg (fun l => { db with jobs := l }) ?_
    refine map_congr_mem ?_
    intro j hj
    simp only [Function.comp]
    by_cases hjid : j.id = jid
    · have hsid : (shiftDown orig t j).id = j.id := by
        unfold shiftDown
        by_cases hs : prioInHalf j orig t = true <;> simp [hs]
      rw [if_pos hjid]
      rw [show (if (shiftDown orig t j).id = jid then setPrio t (shiftDown orig t j)
          else shiftDown orig t j) = setPrio t (shiftDown orig t j) from
        if_pos (by rw [hsid]; exact hjid)]
      unfold shiftDown setPrio
      by_cases hs : prioInHalf j orig t = true <;> simp [hs]
    · have hsid : (shiftDown orig t j).id = j.id := by
        unfold shiftDown
        by_cases hs : prioInHalf j orig t = true <;> simp [hs]
      rw [if_neg hjid]
      rw [show (if (shiftDown orig t j).id = jid then setPrio t (shiftDown orig t j)
          else shiftDown orig t j) = shiftDown orig t j from
        if_neg (by rw [hsid]; exact hjid)]
      by_cases hs : prioInHalf j orig t = true
      · have hw : j.idState = JState.waiting := by
          rcases prioInHalf_true.mp hs with ⟨p, hp, _, _⟩
          exact hcoup j hj (by rw [hp]; simp)
        rw [if_pos ⟨hw, hs⟩]
        unfold shiftDown
        rw [if_pos hs]
      · rw [if_neg (fun hc => hs hc.2)]
        unfold shiftDown
        rw [if_neg hs]

/-- C2 witness: the characterization applied to the dense queue, moving
job 2 after job 4 (the tail direction). -/
theorem reorder_interval_shift_witness :
    reorder_job_in_queue denseDB 2 (some 4) =
      .ok { denseDB with jobs := denseDB.jobs.map (fun j =>
        if j.id = 2 then { j with priority_i := some (4 : Int) }
        else if j.idState = JState.waiting ∧ prioInHalf j 2 4 = true then
          { j with priority_i := j.priority_i.map (fun p => p - 1) }
        else j) } :=
  (reorder_interval_shift.1 denseDB 2 4 (sampleJob 2 .waiting (some 2))
    (sampleJob 4 .waiting (some 4)) 2 4 rfl rfl rfl rfl (by decide) rfl rfl
    (by decide)).2 (by decide)

/-- C5.  In every database reachable through the operations of the job
manager, no two Waiting jobs hold the same priority value. -/
theorem reachable_waiting_priorities_unique :
    ∀ db : DB, Reachable db →
      db.jobs.Pairwise (fun a b =>
        a.idState = JState.waiting → b.idState = JState.waiting →
        a.priority_i ≠ b.priority_i) := by
  intro db h
  have hinv := reachable_inv h
  refine pairwise_imp_of_mem ?_ hinv.pairs
  intro a b ha hb hr hwa hwb hpe
  have hca := hinv.coupling a ha
  unfold Coupled at hca
  have hne : a.priority_i ≠ none := hca.mpr hwa
  rcases Option.ne_none_iff_exists.mp hne with ⟨p, hp⟩
  exact hr.2 p hp.symm (by rw [← hpe, ← hp])

/-- A database reached by inserting a job and enqueueing it. -/
def reachedDB1 : DB :=
  (applyOp (Op.enqueue 1) (applyOp (Op.insert "a" 1 1) (jobsOnlyDB [])).state).state

/-- C5 witness: the uniqueness property holds at the concrete database
reached by inserting one job and enqueueing it. -/
theorem reachable_waiting_priorities_unique_witness :
    reachedDB1.jobs.Pairwise (fun a b =>
      a.idState = JState.waiting → b.idState = JState.waiting →
      a.priority_i ≠ b.priority_i) :=
  reachable_waiting_priorities_unique reachedDB1
    (Reachable.step _ _
      (Reachable.step _ _ (Reachable.init _ rfl rfl) ⟨Op.insert "a" 1 1, rfl⟩)
      ⟨Op.enqueue 1, rfl⟩)

/-- C6.  In every database reachable through the operations of the job
manager, a job holds a priority exactly when its state is Waiting. -/
theorem reachable_priority_iff_waiting :
    ∀ db : DB, Reachable db →
      ∀ j ∈ db.jobs, (j.priority_i ≠ none ↔ j.idState = JState.waiting) :=
  fun _ h j hj => (reachable_inv h).coupling j hj

/-- A database reached by inserting two jobs and enqueueing the second. -/
def reachedDB2 : DB :=
  (applyOp (Op.enqueue 2)
    (applyOp (Op.insert "b" 1 1)
      (applyOp (Op.insert "a" 1 1) (jobsOnlyDB [])).state).state).state

/-- The second job of reachedDB2 after its enqueue: Waiting with
priority 1. -/
def reachedJob2 : JobRec :=
  { id := 2, name := "b", idState := .waiting, idFile := 1, idUser := 1,
    priority_i := some 1, canBePrinted := false, retries := 0, progress := some 0,
    startedAt := none, finishedAt := none, estimatedTimeLeft := none,
    interrupted := false, succeed := none }

/-- C6 witness: the coupling holds at the enqueued job of the concrete
database reached by two insertions and one enqueue. -/
theorem reachable_priority_iff_waiting_witness :
    reachedJob2.priority_i ≠ none ↔ reachedJob2.idState = JState.waiting :=
  reachable_priority_iff_waiting reachedDB2
    (Reachable.step _ _
      (Reachable.step _ _
        (Reachable.step _ _ (Reachable.init _ rfl rfl) ⟨Op.insert "a" 1 1, rfl⟩)
        ⟨Op.insert "b" 1 1, rfl⟩)
      ⟨Op.enqueue 2, rfl⟩)
    reachedJob2 (by decide)

/-- C7.  Enqueueing a Created job gives it the priority one past the
current maximum (1 when no job holds a priority, and strictly above
every existing priority), moves it to Waiting with retries 0 and
progress 0, stores the freshly computed capability result, touches no
other job and no other table; on a job not in state Created it fails. -/
theorem enqueue_sets_tail_priority :
    ∀ (db : DB) (jid : Nat) (job : JobRec) (b : Bool),
      findJob db jid = some job →
      ((job.idState = JState.created →
        check_can_be_printed_job db jid = Except.ok b →
        ∃ db', enqueue_created_job db jid = .ok db' ∧
          findJob db' jid = some { job with
            priority_i := some (newTailPrio db),
            idState := JState.waiting, canBePrinted := b, retries := 0,
            progress := some 0 } ∧
          (maxPrio db.jobs = none → newTailPrio db = 1) ∧
          (∀ m : Int, maxPrio db.jobs = some m → newTailPrio db = m + 1) ∧
          (∀ j ∈ db.jobs, ∀ q : Int, j.priority_i = some q → q < newTailPrio db) ∧
          (∀ j ∈ db.jobs, j.id ≠ jid → j ∈ db'.jobs) ∧
          db'.printers = db.printers ∧ db'.printerStates = db.printerStates ∧
          db'.files = db.files ∧ db'.jobExtruders = db.jobExtruders) ∧
       (job.idState ≠ JState.created →
        enqueue_created_job db jid = .err .invalidParameter db)) := by
  intro db jid job b hfind
  constructor
  · intro hst hchk
    unfold enqueue_created_job
    rw [hfind]
    dsimp only
    rw [if_neg (by rw [hst]; exact fun h => h rfl), hchk]
    dsimp only
    refine ⟨_, rfl, ?_, ?_, ?_, ?_, ?_, rfl, rfl, rfl, rfl⟩
    · exact findJob_updJob (fun x => rfl) hfind
    · intro h
      unfold newTailPrio
      rw [h]
    · intro m h
      unfold newTailPrio
      rw [h]
    · intro j hj q hq
      unfold newTailPrio
      cases hmax : maxPrio db.jobs with
      | none => rw [maxPrio_none hmax j hj] at hq; cases hq
      | some m =>
        have := maxPrio_le hmax j hj q hq
        show q < m + 1
        omega
    · exact fun j hj hne => mem_updJob_of_ne hj hne
  · intro hst
    unfold enqueue_created_job
    rw [hfind]
    dsimp only
    rw [if_pos hst]

/-- A single Created job and nothing else. -/
def createdOnlyDB : DB := jobsOnlyDB [sampleJob 1 .created none]

/-- C7 witness: enqueueing the Created job of createdOnlyDB, where the
capability check computes false (no printers exist). -/
theorem enqueue_sets_tail_priority_witness :
    ∃ db', enqueue_created_job createdOnlyDB 1 = .ok db' ∧
      findJob db' 1 = some { sampleJob 1 .created none with
        priority_i := some (newTailPrio createdOnlyDB), idState := JState.waiting,
        canBePrinted := false, retries := 0, progress := some 0 } ∧
      (maxPrio createdOnlyDB.jobs = none → newTailPrio createdOnlyDB = 1) ∧
      (∀ m : Int, maxPrio createdOnlyDB.jobs = some m →
        newTailPrio createdOnlyDB = m + 1) ∧
      (∀ j ∈ createdOnlyDB.jobs, ∀ q : Int, j.priority_i = some q →
        q < newTailPrio createdOnlyDB) ∧
      (∀ j ∈ createdOnlyDB.jobs, j.id ≠ 1 → j ∈ db'.jobs) ∧
      db'.printers = createdOnlyDB.printers ∧
      db'.printerStates = createdOnlyDB.printerStates ∧
      db'.files = createdOnlyDB.files ∧
      db'.jobExtruders = createdOnlyDB.jobExtruders :=
  (enqueue_sets_tail_priority createdOnlyDB 1 (sampleJob 1 .created none) false
    rfl).1 rfl rfl

/-- C8.  Finishing a Printing job whose assigned printer exists and has
an extruder with material and type at every index the job uses moves the
row to Finished with finishedAt stamped, progress 100 and
estimatedTimeLeft 0, and copies the current extruder type and
material of the printer at each index into the used fields of the extruder
rows of the job;
printers and the other jobs are untouched. -/
theorem finish_copies_printer_extruders :
    ∀ (db : DB) (now jid : Nat) (job : JobRec) (printer : PrinterRec),
      findJob db jid = some job →
      job.idState = JState.printing →
      assigned_printer db jid = some printer →
      (∀ je ∈ db.jobExtruders, je.idJob = jid →
        ∃ pe, printer.extruders.find? (fun pe => pe.index == je.extruderIndex) = some pe ∧
          pe.idExtruderType.isSome ∧ pe.idMaterial.isSome) →
      ∃ db', set_finished_job db now jid = .ok db' ∧
        findJob db' jid = some { job with
          idState := JState.finished,
          finishedAt := some now, progress := some 100, estimatedTimeLeft := some 0 } ∧
        db'.jobExtruders = db.jobExtruders.map (fun je =>
          if je.idJob = jid then
            { je with
              idUsedExtruderType := (printer.extruders.find?
                (fun pe => pe.index == je.extruderIndex)).bind
                (fun pe => pe.idExtruderType),
              idUsedMaterial := (printer.extruders.find?
                (fun pe => pe.index == je.extruderIndex)).bind
                (fun pe => pe.idMaterial) }
          else je) ∧
        db'.printers = db.printers ∧
        (∀ j ∈ db.jobs, j.id ≠ jid → j ∈ db'.jobs) := by
  intro db now jid job printer hfind hst hap hext
  unfold set_finished_job
  rw [hfind]
  dsimp only
  rw [if_neg (by rw [hst]; exact fun h => h rfl)]
  have hap2 : assigned_printer (updJob db jid (finishUpd now)) jid = some printer := hap
  rw [hap2]
  dsimp only
  have hfe : finish_extruders printer jid (updJob db jid (finishUpd now)).jobExtruders =
      Except.ok (db.jobExtruders.map (fun je =>
        if je.idJob = jid then
          { je with
            idUsedExtruderType := (printer.extruders.find?
              (fun pe => pe.index == je.extruderIndex)).bind
              (fun pe => pe.idExtruderType),
            idUsedMaterial := (printer.extruders.find?
              (fun pe => pe.index == je.extruderIndex)).bind
              (fun pe => pe.idMaterial) }
        else je)) :=
    finish_extruders_ok db.jobExtruders hext
  rw [hfe]
  dsimp only
  refine ⟨_, rfl, ?_, rfl, rfl, ?_⟩
  · exact findJob_updJob (fun x => rfl) hfind
  · exact fun j hj hne => mem_updJob_of_ne hj hne

/-- The extruder row of the job finishing in the C8 scenario. -/
def finishJobExtruder : JobExtruderRec :=
  { id := 1, idJob := 1, extruderIndex := 0,
    idUsedExtruderType := none, idUsedMaterial := none }

/-- Printer 9, holding extruder type 3 and material 4 at index 0. -/
def finishPrinter : PrinterRec :=
  { id := 9, idState := 1, idCurrentJob := some 1,
    extruders := [{ idExtruderType := some 3, idMaterial := some 4, index := 0 }] }

/-- A Printing job assigned to printer 9, which holds extruder type 3 and
material 4 at index 0; the job uses extruder index 0. -/
def finishReadyDB : DB :=
  { jobs := [sampleJob 1 .printing none],
    printers := [finishPrinter],
    printerStates := [],
    files := [],
    allowedMaterials := [],
    allowedExtruders := [],
    jobExtruders := [finishJobExtruder] }

/-- C8 witness: finishing the Printing job of finishReadyDB copies type 3
and material 4 into its extruder row. -/
theorem finish_copies_printer_extruders_witness :
    ∃ db', set_finished_job finishReadyDB 7 1 = .ok db' ∧
      findJob db' 1 = some { sampleJob 1 .printing none with
        idState := JState.finished, finishedAt := some 7, progress := some 100,
        estimatedTimeLeft := some 0 } ∧
      db'.jobExtruders = finishReadyDB.jobExtruders.map (fun je =>
        if je.idJob = 1 then
          { je with
            idUsedExtruderType := (finishPrinter.extruders.find?
              (fun pe => pe.index == je.extruderIndex)).bind
              (fun pe => pe.idExtruderType),
            idUsedMaterial := (finishPrinter.extruders.find?
              (fun pe => pe.index == je.extruderIndex)).bind
              (fun pe => pe.idMaterial) }
        else je) ∧
      db'.printers = finishReadyDB.printers ∧
      (∀ j ∈ finishReadyDB.jobs, j.id ≠ 1 → j ∈ db'.jobs) :=
  finish_copies_printer_extruders finishReadyDB 7 1 (sampleJob 1 .printing none)
    finishPrinter rfl rfl rfl
    (by
      intro je hje hid
      have hje1 : je = finishJobExtruder := by simpa [finishReadyDB] using hje
      subst hje1
      exact ⟨{ idExtruderType := some 3, idMaterial := some 4, index := 0 },
        rfl, rfl, rfl⟩)

/-- C9.  Requeueing a Printing or Finished job increments its retries
counter by exactly one; reprinting a Done job resets it to zero. -/
theorem requeue_increments_reprint_resets :
    (∀ (db : DB) (jid : Nat) (job : JobRec) (b mp : Bool),
      findJob db jid = some job →
      (job.idState = JState.printing ∨ job.idState = JState.finished) →
      check_can_be_printed_job db jid = Except.ok b →
      ∃ db', enqueue_printing_or_finished_job db jid mp = .ok db' ∧
        ∃ job', findJob db' jid = some job' ∧ job'.retries = job.retries + 1) ∧
    (∀ (db : DB) (jid : Nat) (job : JobRec) (b : Bool),
      findJob db jid = some job →
      job.idState = JState.done →
      check_can_be_printed_job db jid = Except.ok b →
      ∃ db', reprint_done_job db jid = .ok db' ∧
        ∃ job', findJob db' jid = some job' ∧ job'.retries = 0) := by
  constructor
  · intro db jid job b mp hfind hst hchk
    unfold enqueue_printing_or_finished_job
    rw [hfind]
    dsimp only
    rw [if_neg (by rcases hst with h | h
                   · exact fun hc => hc.1 h
                   · exact fun hc => hc.2 h), hchk]
    dsimp only
    refine ⟨_, rfl, requeueUpd (if mp then newHeadPrio db else newTailPrio db) b job,
      ?_, rfl⟩
    exact findJob_updJob (fun x => rfl) hfind
  · intro db jid job b hfind hst hchk
    unfold reprint_done_job
    rw [hfind]
    dsimp only
    rw [if_neg (by rw [hst]; exact fun h => h rfl), hchk]
    dsimp only
    refine ⟨_, rfl, reprintUpd (newTailPrio db) b job, ?_, rfl⟩
    exact findJob_updJob (fun x => rfl) hfind

/-- A single Done job and nothing else. -/
def doneOnlyDB : DB := jobsOnlyDB [sampleJob 1 .done none]

/-- C9 witness: requeueing the Printing job of finishReadyDB yields
retries 1, and reprinting the Done job of doneOnlyDB yields retries 0. -/
theorem requeue_increments_reprint_resets_witness :
    (∃ db', enqueue_printing_or_finished_job finishReadyDB 1 false = .ok db' ∧
      ∃ job', findJob db' 1 = some job' ∧
        job'.retries = (sampleJob 1 .printing none).retries + 1) ∧
    (∃ db', reprint_done_job doneOnlyDB 1 = .ok db' ∧
      ∃ job', findJob db' 1 = some job' ∧ job'.retries = 0) :=
  ⟨requeue_increments_reprint_resets.1 finishReadyDB 1 (sampleJob 1 .printing none)
      false false rfl (Or.inl rfl) rfl,
   requeue_increments_reprint_resets.2 doneOnlyDB 1 (sampleJob 1 .done none)
      false rfl rfl rfl⟩

/-- C10.  Assigning a printable Waiting job to a free printer changes
only the idCurrentJob column of that printer: the job table, every other
table, and every other printer are returned exactly as they were. -/
theorem assign_only_sets_printer_current_job :
    ∀ (db : DB) (pid jid : Nat) (printer : PrinterRec) (job : JobRec),
      findPrinter db pid = some printer →
      findJob db jid = some job →
      job.idState = JState.waiting →
      job.canBePrinted = true →
      printer.idCurrentJob = none →
      ∃ db', assign_job_to_printer db pid jid = .ok db' ∧
        db'.jobs = db.jobs ∧ db'.jobExtruders = db.jobExtruders ∧
        db'.files = db.files ∧ db'.printerStates = db.printerStates ∧
        db'.allowedMaterials = db.allowedMaterials ∧
        db'.allowedExtruders = db.allowedExtruders ∧
        db'.printers = db.printers.map (fun p =>
          if p.id = pid then { p with idCurrentJob := some jid } else p) := by
  intro db pid jid printer job hfp hfind hjw hcb hcur
  unfold assign_job_to_printer
  rw [hfp, hfind]
  dsimp only
  rw [if_neg (by rw [hjw]; exact fun h => h rfl),
    if_neg (by rw [hcb]; exact fun h => Bool.noConfusion h),
    if_neg (by rw [hcur]; exact fun h => Bool.noConfusion h)]
  exact ⟨_, rfl, rfl, rfl, rfl, rfl, rfl, rfl, rfl⟩

/-- A printable Waiting job and a free printer. -/
def assignReadyDB : DB :=
  { jobs := [sampleJob 1 .waiting (some 1)],
    printers := [{ id := 7, idState := 1, idCurrentJob := none, extruders := [] }],
    printerStates := [], files := [], allowedMaterials := [], allowedExtruders := [],
    jobExtruders := [] }

/-- C10 witness: assigning job 1 to printer 7 of assignReadyDB. -/
theorem assign_only_sets_printer_current_job_witness :
    ∃ db', assign_job_to_printer assignReadyDB 7 1 = .ok db' ∧
      db'.jobs = assignReadyDB.jobs ∧ db'.jobExtruders = assignReadyDB.jobExtruders ∧
      db'.files = assignReadyDB.files ∧ db'.printerStates = assignReadyDB.printerStates ∧
      db'.allowedMaterials = assignReadyDB.allowedMaterials ∧
      db'.allowedExtruders = assignReadyDB.allowedExtruders ∧
      db'.printers = assignReadyDB.printers.map (fun p =>
        if p.id = 7 then { p with idCurrentJob := some 1 } else p) :=
  assign_only_sets_printer_current_job assignReadyDB 7 1
    { id := 7, idState := 1, idCurrentJob := none, extruders := [] }
    (sampleJob 1 .waiting (some 1)) rfl rfl rfl rfl rfl

end QueueMgr
